import Mathlib

/-!
Shallow embedding of the Klondike Solitaire engine (src/solitaire.py).

Cards are value records `(suit, rank, faceUp)`; a pile is a `List Card`
ordered bottom → top ("top" of the pile = last element of the list, matching
the Python lists where `append` adds the top card and `pop` removes it).
Geometry (pixel positions, hit rectangles) is not modelled: a drag/drop move
is identified by its source pile, the index of the grabbed card, and the
destination pile, exactly the data `handle_drop`/`find_drop_target` resolve
from the pointer position.
-/

namespace Solitaire

inductive Suit
| hearts | diamonds | clubs | spades
deriving DecidableEq, Repr

inductive Rank
| A | r2 | r3 | r4 | r5 | r6 | r7 | r8 | r9 | r10 | J | Q | K
deriving DecidableEq, Repr

inductive Color
| red | black
deriving DecidableEq, Repr

/-- `RANK_VALUES` from the source: the numerical value of each rank. -/
def rankValue : Rank → Nat
| .A => 1 | .r2 => 2 | .r3 => 3 | .r4 => 4 | .r5 => 5 | .r6 => 6 | .r7 => 7
| .r8 => 8 | .r9 => 9 | .r10 => 10 | .J => 11 | .Q => 12 | .K => 13

/-- `Card.color`: red iff hearts or diamonds. -/
def suitColor : Suit → Color
| .hearts => .red | .diamonds => .red | .clubs => .black | .spades => .black

/-- A playing card: identity `(suit, rank)` plus the mutable face-up flag.
(The pixel position fields of the Python `Card` are rendering state and are
not modelled.) -/
structure Card where
  suit : Suit
  rank : Rank
  faceUp : Bool
deriving DecidableEq, Repr

def Card.color (c : Card) : Color := suitColor c.suit

def Card.value (c : Card) : Nat := rankValue c.rank

/-- A foundation pile: its cards plus the suit marker assigned once in
`setup_piles` (used only for rendering the empty-pile placeholder). -/
structure FoundationPile where
  cards : List Card
  suit : Suit
deriving DecidableEq, Repr

/-- `FoundationPile.can_add` from the source: an empty foundation accepts
exactly the aces; a non-empty one accepts exactly the card of the same suit
as its top card and value one higher. -/
def foundationCanAdd (f : FoundationPile) (c : Card) : Bool :=
  match f.cards.getLast? with
  | none => c.rank = Rank.A
  | some top => c.suit = top.suit && c.value = top.value + 1

/-- `TableauPile.can_add` from the source: an empty tableau accepts exactly
the kings; a non-empty one accepts exactly a card of the opposite color and
value one lower than its face-up top card. -/
def tableauCanAdd (t : List Card) (c : Card) : Bool :=
  match t.getLast? with
  | none => c.rank = Rank.K
  | some top =>
      if !top.faceUp then false
      else if c.color = top.color then false
      else if c.value ≠ top.value - 1 then false
      else true

theorem rankValue_pos (r : Rank) : 1 ≤ rankValue r := by
  cases r <;> simp [rankValue]

/-- Apply `f` to the element at index `i`, leaving the list unchanged when
`i` is out of range (the Python code only ever writes to in-range indices). -/
def updateAt (i : Nat) (f : α → α) : List α → List α
| [] => []
| a :: rest =>
    match i with
    | 0 => f a :: rest
    | n + 1 => a :: updateAt n f rest

/-- One entry of the undo stack: `save_state` records the score and, for every
pile, the ordered list of `(suit, rank, face_up)` tuples — i.e. exactly a
`List Card` per pile in our value representation. -/
structure Snapshot where
  score : Int
  stock : List Card
  waste : List Card
  foundations : List (List Card)
  tableaus : List (List Card)
deriving DecidableEq, Repr

/-- The aggregate game state of the `Solitaire` class (rendering and drag
session fields excluded). -/
structure GameState where
  score : Int
  won : Bool
  stock : List Card
  waste : List Card
  foundations : List FoundationPile
  tableaus : List (List Card)
  history : List Snapshot
deriving DecidableEq, Repr

def fEmpty : FoundationPile := ⟨[], Suit.hearts⟩

/-- `Solitaire.save_state`: push a snapshot of score and all piles; drop the
oldest entry when the history exceeds 100 entries. -/
def snapshotOf (s : GameState) : Snapshot :=
  ⟨s.score, s.stock, s.waste, s.foundations.map (·.cards), s.tableaus⟩

def save_state (s : GameState) : GameState :=
  let h := s.history ++ [snapshotOf s]
  { s with history := if 100 < h.length then h.drop 1 else h }

/-- `Solitaire.add_score`: add points (possibly negative) and clamp at 0. -/
def addScore (sc : Int) (points : Int) : Int := max 0 (sc + points)

def restoreFoundations : List FoundationPile → List (List Card) → List FoundationPile
| [], _ => []
| fs, [] => fs
| f :: fs, cs :: rest => ⟨cs, f.suit⟩ :: restoreFoundations fs rest

def restoreTableaus : List (List Card) → List (List Card) → List (List Card)
| [], _ => []
| ts, [] => ts
| _ :: ts, cs :: rest => cs :: restoreTableaus ts rest

/-- `Solitaire.undo`: returns `false` on an empty history; otherwise pops the
most recent snapshot, restores score and every pile from it (foundation suit
markers are untouched), and clears the win flag unconditionally. -/
def undo (s : GameState) : Bool × GameState :=
  match s.history.getLast? with
  | none => (false, s)
  | some snap =>
      (true,
       { score := snap.score
         won := false
         stock := snap.stock
         waste := snap.waste
         foundations := restoreFoundations s.foundations snap.foundations
         tableaus := restoreTableaus s.tableaus snap.tableaus
         history := s.history.dropLast })

/-- `Solitaire.check_win`: set the win flag when every foundation holds
exactly 13 cards (the flag is never cleared here). -/
def checkWin (s : GameState) : GameState :=
  if s.foundations.all (fun f => f.cards.length = 13) then { s with won := true } else s

/-- `SCORE_RECYCLE_WASTE` -/
def scoreRecycleWaste : Int := -20

/-- The body of `draw_card_from_stock` after its `save_state()`: either move
the stock's top card face-up to the waste, or (stock empty, waste non-empty)
recycle the whole waste back to the stock face-down with a score penalty
(popping the waste from the top and appending to the stock reverses the
relative order), or do nothing. -/
def drawStage (s : GameState) : GameState :=
  match s.stock.getLast? with
  | some card =>
      { s with stock := s.stock.dropLast
               waste := s.waste ++ [{ card with faceUp := true }] }
  | none =>
      if s.waste.isEmpty then s
      else
        { s with score := addScore s.score scoreRecycleWaste
                 stock := s.stock ++ s.waste.reverse.map (fun c => { c with faceUp := false })
                 waste := [] }

/-- `Solitaire.draw_card_from_stock`: snapshot first, then draw or recycle. -/
def drawFromStock (s : GameState) : GameState := drawStage (save_state s)

/-- The pile a drag starts from.  For a tableau source, `k` is the index of
the grabbed (face-up) card inside the pile; the run is that card and every
card above it, exactly what `remove_cards_from` detaches.  Waste and
foundation sources always drag their single top card (`start_drag`). -/
inductive DragSrc
| wasteSrc
| foundationSrc (i : Nat)
| tableauSrc (i : Nat) (k : Nat)
deriving DecidableEq, Repr

/-- `find_drop_target` only ever returns a foundation or a tableau. -/
inductive DropDst
| foundationDst (j : Nat)
| tableauDst (j : Nat)
deriving DecidableEq, Repr

structure DropMove where
  src : DragSrc
  dst : DropDst
deriving DecidableEq, Repr

/-- The run of cards a drag carries (`self.dragged_cards`). -/
def dragRun (src : DragSrc) (s : GameState) : List Card :=
  match src with
  | .wasteSrc =>
      match s.waste.getLast? with
      | some c => [c]
      | none => []
  | .foundationSrc i =>
      match ((s.foundations.getD i fEmpty).cards).getLast? with
      | some c => [c]
      | none => []
  | .tableauSrc i k => (s.tableaus.getD i []).drop k

/-- The conditions under which `handle_drop` executes a move: the grab picked
a face-up card (`get_card_at`), the destination differs from the source, a
foundation destination takes only single-card runs, and the destination's
`can_add` accepts the run's first card (`find_drop_target`).  The pointer
geometry that selects the destination is abstracted away: the move names the
destination directly. -/
def legalDrop (m : DropMove) (s : GameState) : Bool :=
  match (dragRun m.src s).head? with
  | none => false
  | some c0 =>
      c0.faceUp &&
      (match m.dst with
       | .foundationDst j =>
           (match m.src with
            | .foundationSrc i => i ≠ j
            | _ => true) &&
           decide (j < s.foundations.length) &&
           (dragRun m.src s).length = 1 &&
           foundationCanAdd (s.foundations.getD j fEmpty) c0
       | .tableauDst j =>
           (match m.src with
            | .tableauSrc i _ => i ≠ j
            | _ => true) &&
           decide (j < s.tableaus.length) &&
           tableauCanAdd (s.tableaus.getD j []) c0)

/-- Remove the dragged run from its source pile: `remove_cards_from` for a
tableau source, one `remove_card` per dragged card (always exactly one) for
waste/foundation sources. -/
def removeRun (src : DragSrc) (s : GameState) : GameState :=
  match src with
  | .wasteSrc => { s with waste := s.waste.dropLast }
  | .foundationSrc i =>
      { s with foundations := updateAt i (fun f => ⟨f.cards.dropLast, f.suit⟩) s.foundations }
  | .tableauSrc i k =>
      { s with tableaus := updateAt i (fun t => t.take k) s.tableaus }

/-- `drop_target.add_cards(self.dragged_cards)` -/
def addRun (dst : DropDst) (run : List Card) (s : GameState) : GameState :=
  match dst with
  | .foundationDst j =>
      { s with foundations := updateAt j (fun f => ⟨f.cards ++ run, f.suit⟩) s.foundations }
  | .tableauDst j =>
      { s with tableaus := updateAt j (fun t => t ++ run) s.tableaus }

/-- Does `flip_top_card` have work to do: pile non-empty with face-down top. -/
def needFlip (t : List Card) : Bool :=
  match t.getLast? with
  | some c => !c.faceUp
  | none => false

/-- `flip_top_card`: turn the top (last) card face-up. -/
def flipTop : List Card → List Card
| [] => []
| [c] => [{ c with faceUp := true }]
| c :: rest => c :: flipTop rest

/-- The score block of `handle_drop`: +10 per card for a foundation
destination; for a tableau destination +5 from the waste, −15 from a
foundation, and no `add_score` call at all from a tableau. -/
def dropScoreStage (src : DragSrc) (dst : DropDst) (n : Nat) (s : GameState) : GameState :=
  match dst with
  | .foundationDst _ => { s with score := addScore s.score (10 * n) }
  | .tableauDst _ =>
      match src with
      | .wasteSrc => { s with score := addScore s.score 5 }
      | .foundationSrc _ => { s with score := addScore s.score (-15) }
      | .tableauSrc _ _ => s

/-- The reveal block of `handle_drop`: if the source was a tableau whose new
top card is face-down, flip it and award +5. -/
def dropFlipStage (src : DragSrc) (s : GameState) : GameState :=
  match src with
  | .tableauSrc i _ =>
      if needFlip (s.tableaus.getD i []) then
        { s with tableaus := updateAt i (fun _ => flipTop (s.tableaus.getD i [])) s.tableaus
                 score := addScore s.score 5 }
      else s
  | _ => s

/-- `Solitaire.handle_drop` on a valid drop: snapshot, detach the run from
the source, append it to the destination, apply the score rule for the
source/destination kinds, flip (and reward) a newly exposed source-tableau
top card, and re-check the win condition.  An invalid drop leaves the state
unchanged (cards snap back; no snapshot). -/
def execDrop (m : DropMove) (s : GameState) : GameState :=
  if legalDrop m s then
    checkWin
      (dropFlipStage m.src
        (dropScoreStage m.src m.dst (dragRun m.src s).length
          (addRun m.dst (dragRun m.src s) (removeRun m.src (save_state s)))))
  else s

/-- The foundation loop `for f in self.foundations: if f.can_add(card)`:
index of the first foundation that accepts `c`. -/
def firstAccepting (fs : List FoundationPile) (c : Card) : Option Nat :=
  fs.findIdx? (fun f => foundationCanAdd f c)

/-- `fs[j].cards.append(card)` -/
def foundationAdd (j : Nat) (c : Card) (fs : List FoundationPile) : List FoundationPile :=
  updateAt j (fun f => ⟨f.cards ++ [c], f.suit⟩) fs

/-- A double-click lands on the waste or on a tableau (`get_pile_at` plus the
`isinstance` filter excluding stock and foundations). -/
inductive ClickSrc
| wasteClick
| tableauClick (i : Nat)
deriving DecidableEq, Repr

/-- The double-click handler: try to move the clicked pile's top card to the
first foundation that accepts it; on success snapshot first, score +10, flip
(and reward) a newly exposed tableau top, and re-check the win condition. -/
def dblClickMove (p : ClickSrc) (s : GameState) : GameState :=
  match p with
  | .wasteClick =>
      match s.waste.getLast? with
      | none => s
      | some card =>
          match firstAccepting s.foundations card with
          | none => s
          | some j =>
              let s1 := save_state s
              checkWin
                { s1 with waste := s1.waste.dropLast
                          foundations := foundationAdd j card s1.foundations
                          score := addScore s1.score 10 }
  | .tableauClick i =>
      match (s.tableaus.getD i []).getLast? with
      | none => s
      | some card =>
          match firstAccepting s.foundations card with
          | none => s
          | some j =>
              let s1 := save_state s
              let t1 := (s.tableaus.getD i []).dropLast
              let flip := needFlip t1
              let t2 := if flip then flipTop t1 else t1
              let sc := addScore s1.score 10
              checkWin
                { s1 with tableaus := updateAt i (fun _ => t2) s1.tableaus
                          foundations := foundationAdd j card s1.foundations
                          score := if flip then addScore sc 5 else sc }

/-- The waste check at the start of each `auto_move_to_foundation` pass:
move the waste's top card to the first accepting foundation, if any. -/
def wasteStep (s : GameState) : Bool × GameState :=
  match s.waste.getLast? with
  | none => (false, s)
  | some card =>
      match firstAccepting s.foundations card with
      | none => (false, s)
      | some j =>
          (true,
           { s with waste := s.waste.dropLast
                    foundations := foundationAdd j card s.foundations
                    score := addScore s.score 10 })

/-- One successful tableau-to-foundation auto-move: remove the top card of
tableau `i`, add it to foundation `j`, score +10, and flip (and reward) a
newly exposed face-down top. -/
def doTabMove (i j : Nat) (s : GameState) : GameState :=
  match (s.tableaus.getD i []).getLast? with
  | none => s
  | some card =>
      let t1 := (s.tableaus.getD i []).dropLast
      let flip := needFlip t1
      let t2 := if flip then flipTop t1 else t1
      let sc := addScore s.score 10
      { s with tableaus := updateAt i (fun _ => t2) s.tableaus
               foundations := foundationAdd j card s.foundations
               score := if flip then addScore sc 5 else sc }

/-- The tableau scan of one `auto_move_to_foundation` pass.  Mirrors the
Python loop exactly, including the quirk that the trailing `if moved: break`
sits inside the `if t.cards:` block: the scan stops at the first non-empty
tableau once `moved` is set (whether by the waste step or by a tableau move),
but walks straight past empty tableaus. -/
def tabLoop (s : GameState) (moved : Bool) : List Nat → Bool × GameState
| [] => (moved, s)
| i :: rest =>
    match (s.tableaus.getD i []).getLast? with
    | none => tabLoop s moved rest
    | some card =>
        match firstAccepting s.foundations card with
        | some j => (true, doTabMove i j s)
        | none => if moved then (moved, s) else tabLoop s moved rest

/-- One iteration of the `while moved:` loop body. -/
def onePass (s : GameState) : Bool × GameState :=
  let w := wasteStep s
  tabLoop w.2 w.1 (List.range w.2.tableaus.length)

/-- Number of cards outside the foundations that the auto-move loop can still
consume: the loop only ever moves cards from waste/tableaus to foundations,
so this strictly decreases on every pass that reports a move. -/
def sumLens (ts : List (List Card)) : Nat := (ts.map List.length).sum

def outside (s : GameState) : Nat := s.waste.length + sumLens s.tableaus

theorem length_flipTop : ∀ t : List Card, (flipTop t).length = t.length := by
  intro t
  induction t with
  | nil => rfl
  | cons c rest ih =>
      cases rest with
      | nil => rfl
      | cons d rest' => simpa [flipTop] using ih

theorem sumLens_updateAt_lt : ∀ (l : List (List Card)) (i : Nat) (t' : List Card),
    t'.length < (l.getD i []).length →
    sumLens (updateAt i (fun _ => t') l) < sumLens l := by
  intro l
  induction l with
  | nil => intro i t' h; simp [List.getD] at h
  | cons a rest ih =>
      intro i t' h
      cases i with
      | zero =>
          simp only [List.getD_cons_zero] at h
          simp only [updateAt, sumLens, List.map_cons, List.sum_cons]
          omega
      | succ n =>
          simp only [List.getD_cons_succ] at h
          have := ih n t' h
          simp only [updateAt, sumLens, List.map_cons, List.sum_cons] at *
          omega

theorem length_pos_of_getLast?_eq_some {α : Type} {l : List α} {c : α}
    (h : l.getLast? = some c) : 1 ≤ l.length := by
  cases l with
  | nil => simp at h
  | cons x xs => simp

theorem doTabMove_lt (i j : Nat) (s : GameState) (c : Card)
    (h : (s.tableaus.getD i []).getLast? = some c) :
    outside (doTabMove i j s) < outside s := by
  have hlen : 1 ≤ (s.tableaus.getD i []).length := length_pos_of_getLast?_eq_some h
  unfold doTabMove
  rw [h]
  show s.waste.length + sumLens (updateAt i
      (fun _ => if needFlip (s.tableaus.getD i []).dropLast
                then flipTop (s.tableaus.getD i []).dropLast
                else (s.tableaus.getD i []).dropLast) s.tableaus) <
    s.waste.length + sumLens s.tableaus
  have hdl : (s.tableaus.getD i []).dropLast.length = (s.tableaus.getD i []).length - 1 :=
    List.length_dropLast _
  have hlt : (if needFlip (s.tableaus.getD i []).dropLast
                then flipTop (s.tableaus.getD i []).dropLast
                else (s.tableaus.getD i []).dropLast).length <
      (s.tableaus.getD i []).length := by
    split
    · rw [length_flipTop, hdl]; omega
    · rw [hdl]; omega
  have := sumLens_updateAt_lt s.tableaus i _ hlt
  omega

theorem wasteStep_out (s : GameState) :
    wasteStep s = (false, s) ∨
    ((wasteStep s).1 = true ∧ outside (wasteStep s).2 < outside s) := by
  simp only [wasteStep]
  split
  · left; rfl
  · next card heq =>
      split
      · left; rfl
      · next j heq2 =>
          right
          refine ⟨rfl, ?_⟩
          show s.waste.dropLast.length + sumLens s.tableaus <
            s.waste.length + sumLens s.tableaus
          have := length_pos_of_getLast?_eq_some heq
          rw [List.length_dropLast]
          omega

theorem tabLoop_out : ∀ (idxs : List Nat) (s : GameState) (moved : Bool),
    tabLoop s moved idxs = (moved, s) ∨
    ((tabLoop s moved idxs).1 = true ∧ outside (tabLoop s moved idxs).2 < outside s) := by
  intro idxs
  induction idxs with
  | nil => intro s moved; left; rfl
  | cons i rest ih =>
      intro s moved
      simp only [tabLoop]
      split
      · exact ih s moved
      · next card heq =>
          split
          · next j heq2 =>
              right
              exact ⟨rfl, doTabMove_lt i j s card heq⟩
          · next heq2 =>
              split
              · next hm => left; rfl
              · next hm => exact ih s moved

theorem onePass_out (s : GameState) :
    (onePass s).1 = true → outside (onePass s).2 < outside s := by
  intro h
  unfold onePass at *
  rcases wasteStep_out s with hw | ⟨hw1, hw2⟩
  · rw [hw] at h ⊢
    rcases tabLoop_out (List.range s.tableaus.length) s false with ht | ⟨ht1, ht2⟩
    · rw [ht] at h; exact absurd h (by simp)
    · exact ht2
  · rcases tabLoop_out (List.range (wasteStep s).2.tableaus.length) (wasteStep s).2 (wasteStep s).1
      with ht | ⟨ht1, ht2⟩
    · rw [ht]; exact hw2
    · exact lt_trans ht2 hw2

/-- The `while moved:` loop of `auto_move_to_foundation`, which runs passes
until a full pass makes no move. -/
def autoLoop (s : GameState) : GameState :=
  let r := onePass s
  if h : r.1 = true then autoLoop r.2 else r.2
termination_by outside s
decreasing_by exact onePass_out s h

/-- `Solitaire.auto_move_to_foundation`: one snapshot up front, then the
pass loop, then a win re-check. -/
def autoMove (s : GameState) : GameState := checkWin (autoLoop (save_state s))

/-- Card identity without a face flag: what the shuffled deck supplies
(`new_game` sets every face flag itself while dealing). -/
def CardId : Type := Suit × Rank

instance : DecidableEq CardId := instDecidableEqProd

/-- `SUITS` × `RANKS` in the source's construction order: the content of a
freshly built (unshuffled) `Deck`. -/
def suitList : List Suit := [.hearts, .diamonds, .clubs, .spades]

def rankList : List Rank :=
  [.A, .r2, .r3, .r4, .r5, .r6, .r7, .r8, .r9, .r10, .J, .Q, .K]

def stdDeckIds : List CardId :=
  suitList.flatMap (fun su => rankList.map (fun r => (su, r)))

/-- `Deck.deal` pops from the END of the deck list, so a run of deals yields
the deck's cards in reverse order; we precompute that stream once. -/
def dealStream (deck : List CardId) : List CardId := deck.reverse

/-- The `(i, j)` iteration order of the dealing loops
`for i in range(7): for j in range(i, 7)`. -/
def dealPairs : List (Nat × Nat) :=
  (List.range 7).flatMap (fun i => (List.range' i (7 - i)).map (fun j => (i, j)))

/-- One dealt card: append it to tableau `j`, face-up exactly when `i = j`
(`card.face_up = (i == j)`). -/
def dealStep (tabs : List (List Card)) (pc : (Nat × Nat) × CardId) : List (List Card) :=
  updateAt pc.1.2 (fun t => t ++ [⟨pc.2.1, pc.2.2, pc.1.1 = pc.1.2⟩]) tabs

/-- The triangular deal into the 7 (previously cleared) tableaus. -/
def dealTableaus (stream : List CardId) : List (List Card) :=
  (dealPairs.zip (stream.take 28)).foldl dealStep (List.replicate 7 [])

/-- `Solitaire.new_game` on an existing game object: reset score, win flag
and history, clear every pile (foundation suit markers persist from
`setup_piles`), deal 28 cards to the tableaus, and put the remaining cards
face-down on the stock (in deal order, so the stock's top card is the deck
list's first element). -/
def newGameOn (deck : List CardId) (s : GameState) : GameState :=
  { score := 0
    won := false
    history := []
    stock := ((dealStream deck).drop 28).map (fun c => ⟨c.1, c.2, false⟩)
    waste := []
    foundations := s.foundations.map (fun f => ⟨[], f.suit⟩)
    tableaus := dealTableaus (dealStream deck) }

/-- `setup_piles`: the four foundations are created with the suits of `SUITS`
in order; stock, waste and the 7 tableaus start empty. -/
def setupState : GameState :=
  { score := 0
    won := false
    stock := []
    waste := []
    foundations := suitList.map (fun su => ⟨[], su⟩)
    tableaus := List.replicate 7 []
    history := [] }

/-- `Solitaire.__init__`: `setup_piles()` followed by `new_game()`. -/
def initGame (deck : List CardId) : GameState := newGameOn deck setupState

/-- The operations a player can trigger: a drag/drop move, a stock click,
a double-click auto-move, the auto-complete key, the undo button/keys, and
the new-game key (carrying the freshly shuffled deck). -/
inductive Op
| drop (m : DropMove)
| draw
| dbl (p : ClickSrc)
| auto
| undoOp
| newGameOp (deck : List CardId)

def applyOp (o : Op) (s : GameState) : GameState :=
  match o with
  | .drop m => execDrop m s
  | .draw => drawFromStock s
  | .dbl p => dblClickMove p s
  | .auto => autoMove s
  | .undoOp => (undo s).2
  | .newGameOp d => newGameOn d s

/-- A new game must be dealt from a genuine shuffle, i.e. a permutation of
the standard 52-card deck; every other operation is always available. -/
def ValidOp : Op → Prop
| .newGameOp d => d.Perm stdDeckIds
| _ => True

/-- The states reachable by playing the game: a fresh `Solitaire()` object,
followed by any sequence of user operations. -/
inductive Reachable : GameState → Prop
| base (d : List CardId) : d.Perm stdDeckIds → Reachable (initGame d)
| step (o : Op) (s : GameState) : Reachable s → ValidOp o → Reachable (applyOp o s)

/-- Which moves take the snapshot branch (execute a state change that pushes
an undo entry): any stock click or auto-complete does; a drop must pass
`legalDrop`; a double-click must find an accepting foundation for a
non-empty pile's top card.  Undo and new-game are not moves. -/
def legalMove (o : Op) (s : GameState) : Bool :=
  match o with
  | .drop m => legalDrop m s
  | .draw => true
  | .auto => true
  | .dbl .wasteClick =>
      match s.waste.getLast? with
      | some c => (firstAccepting s.foundations c).isSome
      | none => false
  | .dbl (.tableauClick i) =>
      match (s.tableaus.getD i []).getLast? with
      | some c => (firstAccepting s.foundations c).isSome
      | none => false
  | .undoOp => false
  | .newGameOp _ => false

theorem getLast?_concat_eq {α : Type} (rest : List α) (top : α) :
    (rest ++ [top]).getLast? = some top := by
  simp

theorem foundationCanAdd_concat (f : FoundationPile) (rest : List Card) (top c : Card)
    (h : f.cards = rest ++ [top]) :
    foundationCanAdd f c =
      (decide (c.suit = top.suit) && decide (c.value = top.value + 1)) := by
  unfold foundationCanAdd
  rw [h, getLast?_concat_eq]

theorem tableauCanAdd_concat (rest : List Card) (top c : Card) :
    tableauCanAdd (rest ++ [top]) c =
      (if (!top.faceUp) = true then false
       else if c.color = top.color then false
       else if c.value ≠ top.value - 1 then false
       else true) := by
  unfold tableauCanAdd
  rw [getLast?_concat_eq]

/-- C5: `canAccept` on an empty foundation is true exactly for rank Ace; on a
non-empty foundation it is true exactly when the card's suit equals the top
card's suit and its value is the top card's value plus 1. -/
theorem foundation_legality (f : FoundationPile) (c : Card) :
    foundationCanAdd f c = true ↔
      ((f.cards = [] ∧ c.rank = Rank.A) ∨
       (∃ top rest, f.cards = rest ++ [top] ∧
          c.suit = top.suit ∧ c.value = top.value + 1)) := by
  rcases List.eq_nil_or_concat f.cards with hc | ⟨rest, top, hc⟩
  · unfold foundationCanAdd
    rw [hc]
    simp
  · rw [List.concat_eq_append] at hc
    rw [foundationCanAdd_concat f rest top c hc, hc]
    constructor
    · intro hb
      simp only [Bool.and_eq_true, decide_eq_true_eq] at hb
      exact Or.inr ⟨top, rest, rfl, hb.1, hb.2⟩
    · rintro (⟨hnil, _⟩ | ⟨top', rest', heq, h1, h2⟩)
      · exact absurd hnil (by simp)
      · have htop : top' = top := by
          have := congrArg List.getLast? heq
          rw [getLast?_concat_eq, getLast?_concat_eq] at this
          exact (Option.some_injective _ this).symm
        subst htop
        simp only [Bool.and_eq_true, decide_eq_true_eq]
        exact ⟨h1, h2⟩

/-- C6: `canAccept` on an empty tableau is true exactly for rank King; on a
non-empty tableau it is true exactly when the top card is face-up, the colors
differ, and the card's value is one less than the top's (stated as
`value + 1 = top.value`, equivalent to `value = top.value - 1` since all card
values are at least 1); in particular it is false whenever the top card is
face-down. -/
theorem tableau_legality (t : List Card) (c : Card) :
    tableauCanAdd t c = true ↔
      ((t = [] ∧ c.rank = Rank.K) ∨
       (∃ top rest, t = rest ++ [top] ∧ top.faceUp = true ∧
          c.color ≠ top.color ∧ c.value + 1 = top.value)) := by
  rcases List.eq_nil_or_concat t with hc | ⟨rest, top, hc⟩
  · unfold tableauCanAdd
    rw [hc]
    simp
  · rw [List.concat_eq_append] at hc
    subst hc
    rw [tableauCanAdd_concat rest top c]
    have hcv : 1 ≤ c.value := rankValue_pos c.rank
    have htv : 1 ≤ top.value := rankValue_pos top.rank
    constructor
    · intro hb
      by_cases hf : top.faceUp
      · by_cases hcol : c.color = top.color
        · rw [if_neg (by simp [hf]), if_pos hcol] at hb
          exact absurd hb (by simp)
        · by_cases hv : c.value = top.value - 1
          · refine Or.inr ⟨top, rest, rfl, hf, hcol, by omega⟩
          · rw [if_neg (by simp [hf]), if_neg hcol, if_pos hv] at hb
            exact absurd hb (by simp)
      · rw [if_pos (by simp [hf])] at hb
        exact absurd hb (by simp)
    · rintro (⟨hnil, _⟩ | ⟨top', rest', heq, h1, h2, h3⟩)
      · exact absurd hnil (by simp)
      · have htop : top' = top := by
          have := congrArg List.getLast? heq
          rw [getLast?_concat_eq, getLast?_concat_eq] at this
          exact (Option.some_injective _ this).symm
        subst htop
        rw [if_neg (by simp [h1]), if_neg h2, if_neg (by omega)]

theorem length_updateAt {α : Type} (f : α → α) :
    ∀ (l : List α) (i : Nat), (updateAt i f l).length = l.length := by
  intro l
  induction l with
  | nil => intro i; simp [updateAt]
  | cons a rest ih =>
      intro i
      cases i with
      | zero => simp [updateAt]
      | succ n => simp [updateAt, ih n]

theorem map_updateAt {α β : Type} (g : α → β) (f : α → α) (hf : ∀ x, g (f x) = g x) :
    ∀ (l : List α) (i : Nat), (updateAt i f l).map g = l.map g := by
  intro l
  induction l with
  | nil => intro i; simp [updateAt]
  | cons a rest ih =>
      intro i
      cases i with
      | zero => simp [updateAt, hf a]
      | succ n => simp [updateAt, ih n]

theorem map_suit_foundationAdd (j : Nat) (c : Card) (fs : List FoundationPile) :
    (foundationAdd j c fs).map (·.suit) = fs.map (·.suit) := by
  unfold foundationAdd
  exact map_updateAt (·.suit) (fun f => ⟨f.cards ++ [c], f.suit⟩) (fun x => rfl) fs j

theorem map_suit_restoreFoundations :
    ∀ (fs : List FoundationPile) (cs : List (List Card)),
      (restoreFoundations fs cs).map (·.suit) = fs.map (·.suit) := by
  intro fs
  induction fs with
  | nil => intro cs; cases cs <;> rfl
  | cons f rest ih =>
      intro cs
      cases cs with
      | nil => rfl
      | cons c crest => simp [restoreFoundations, ih crest]

/-- Either branch of the waste step leaves the state alone or performs one
specific waste-to-foundation transfer. -/
theorem wasteStep_cases (s : GameState) :
    (wasteStep s).2 = s ∨
    ∃ j card,
      (wasteStep s).2 =
        { s with waste := s.waste.dropLast
                 foundations := foundationAdd j card s.foundations
                 score := addScore s.score 10 } := by
  simp only [wasteStep]
  split
  · left; rfl
  · next card heq =>
      split
      · left; rfl
      · next j heq2 => right; exact ⟨j, card, rfl⟩

/-- The tableau scan leaves the state alone or performs one `doTabMove`. -/
theorem tabLoop_cases : ∀ (idxs : List Nat) (s : GameState) (moved : Bool),
    (tabLoop s moved idxs).2 = s ∨ ∃ i j, (tabLoop s moved idxs).2 = doTabMove i j s := by
  intro idxs
  induction idxs with
  | nil => intro s moved; left; rfl
  | cons i rest ih =>
      intro s moved
      simp only [tabLoop]
      split
      · exact ih s moved
      · next card heq =>
          split
          · next j heq2 => right; exact ⟨i, j, rfl⟩
          · split
            · left; rfl
            · exact ih s moved

theorem history_doTabMove (i j : Nat) (s : GameState) :
    (doTabMove i j s).history = s.history := by
  unfold doTabMove
  split <;> rfl

theorem map_suit_doTabMove (i j : Nat) (s : GameState) :
    ((doTabMove i j s).foundations).map (·.suit) = (s.foundations).map (·.suit) := by
  unfold doTabMove
  split
  · rfl
  · exact map_suit_foundationAdd _ _ _

theorem tableaus_length_doTabMove (i j : Nat) (s : GameState) :
    (doTabMove i j s).tableaus.length = s.tableaus.length := by
  unfold doTabMove
  split
  · rfl
  · exact length_updateAt _ _ _

theorem history_wasteStep (s : GameState) : (wasteStep s).2.history = s.history := by
  rcases wasteStep_cases s with h | ⟨j, c, h⟩ <;> rw [h]

theorem map_suit_wasteStep (s : GameState) :
    ((wasteStep s).2.foundations).map (·.suit) = (s.foundations).map (·.suit) := by
  rcases wasteStep_cases s with h | ⟨j, c, h⟩ <;> rw [h]
  exact map_suit_foundationAdd _ _ _

theorem tableaus_length_wasteStep (s : GameState) :
    (wasteStep s).2.tableaus.length = s.tableaus.length := by
  rcases wasteStep_cases s with h | ⟨j, c, h⟩ <;> rw [h]

theorem history_onePass (s : GameState) : (onePass s).2.history = s.history := by
  unfold onePass
  rcases tabLoop_cases (List.range (wasteStep s).2.tableaus.length) (wasteStep s).2 (wasteStep s).1
    with h | ⟨i, j, h⟩
  · rw [h, history_wasteStep]
  · rw [h, history_doTabMove, history_wasteStep]

theorem map_suit_onePass (s : GameState) :
    ((onePass s).2.foundations).map (·.suit) = (s.foundations).map (·.suit) := by
  unfold onePass
  rcases tabLoop_cases (List.range (wasteStep s).2.tableaus.length) (wasteStep s).2 (wasteStep s).1
    with h | ⟨i, j, h⟩
  · rw [h, map_suit_wasteStep]
  · rw [h, map_suit_doTabMove, map_suit_wasteStep]

theorem tableaus_length_onePass (s : GameState) :
    (onePass s).2.tableaus.length = s.tableaus.length := by
  unfold onePass
  rcases tabLoop_cases (List.range (wasteStep s).2.tableaus.length) (wasteStep s).2 (wasteStep s).1
    with h | ⟨i, j, h⟩
  · rw [h, tableaus_length_wasteStep]
  · rw [h, tableaus_length_doTabMove, tableaus_length_wasteStep]

/-- Anything preserved by a single pass is preserved by the whole
`while moved:` loop. -/
theorem autoLoop_induction (Q : GameState → Prop) (hQ : ∀ s, Q s → Q (onePass s).2) :
    ∀ (n : Nat) (s : GameState), outside s ≤ n → Q s → Q (autoLoop s) := by
  intro n
  induction n with
  | zero =>
      intro s hn hs
      rw [autoLoop]
      split
      · next h =>
          have := onePass_out s h
          omega
      · exact hQ s hs
  | succ n ih =>
      intro s hn hs
      rw [autoLoop]
      split
      · next h =>
          have := onePass_out s h
          exact ih (onePass s).2 (by omega) (hQ s hs)
      · exact hQ s hs

theorem history_autoLoop (s : GameState) : (autoLoop s).history = s.history := by
  exact autoLoop_induction (fun t => t.history = s.history)
    (fun t ht => by
      show (onePass t).2.history = s.history
      rw [history_onePass]; exact ht) (outside s) s le_rfl rfl

theorem map_suit_autoLoop (s : GameState) :
    ((autoLoop s).foundations).map (·.suit) = (s.foundations).map (·.suit) := by
  exact autoLoop_induction
    (fun t => (t.foundations).map (·.suit) = (s.foundations).map (·.suit))
    (fun t ht => by
      show ((onePass t).2.foundations).map (·.suit) = (s.foundations).map (·.suit)
      rw [map_suit_onePass]; exact ht) (outside s) s le_rfl rfl

theorem tableaus_length_autoLoop (s : GameState) :
    (autoLoop s).tableaus.length = s.tableaus.length := by
  exact autoLoop_induction (fun t => t.tableaus.length = s.tableaus.length)
    (fun t ht => by
      show (onePass t).2.tableaus.length = s.tableaus.length
      rw [tableaus_length_onePass]; exact ht) (outside s) s le_rfl rfl

theorem checkWin_fields (s : GameState) :
    (checkWin s).history = s.history ∧ (checkWin s).foundations = s.foundations ∧
    (checkWin s).tableaus = s.tableaus ∧ (checkWin s).score = s.score ∧
    (checkWin s).stock = s.stock ∧ (checkWin s).waste = s.waste := by
  unfold checkWin
  split <;> exact ⟨rfl, rfl, rfl, rfl, rfl, rfl⟩

theorem map_suit_removeRun (src : DragSrc) (s : GameState) :
    ((removeRun src s).foundations).map (·.suit) = (s.foundations).map (·.suit) := by
  cases src with
  | wasteSrc => rfl
  | foundationSrc i =>
      show ((updateAt i (fun f => ⟨f.cards.dropLast, f.suit⟩) s.foundations).map (·.suit)) =
        (s.foundations).map (·.suit)
      apply map_updateAt
      intro x
      rfl
  | tableauSrc i k => rfl

theorem map_suit_addRun (dst : DropDst) (run : List Card) (s : GameState) :
    ((addRun dst run s).foundations).map (·.suit) = (s.foundations).map (·.suit) := by
  cases dst with
  | foundationDst j =>
      show ((updateAt j (fun f => ⟨f.cards ++ run, f.suit⟩) s.foundations).map (·.suit)) =
        (s.foundations).map (·.suit)
      apply map_updateAt
      intro x
      rfl
  | tableauDst j => rfl

theorem map_suit_dropScoreStage (src : DragSrc) (dst : DropDst) (n : Nat) (s : GameState) :
    ((dropScoreStage src dst n s).foundations).map (·.suit) = (s.foundations).map (·.suit) := by
  cases dst with
  | foundationDst j => rfl
  | tableauDst j => cases src <;> rfl

theorem map_suit_dropFlipStage (src : DragSrc) (s : GameState) :
    ((dropFlipStage src s).foundations).map (·.suit) = (s.foundations).map (·.suit) := by
  cases src with
  | wasteSrc => rfl
  | foundationSrc i => rfl
  | tableauSrc i k =>
      simp only [dropFlipStage]
      split <;> rfl

theorem checkWin_foundations (s : GameState) : (checkWin s).foundations = s.foundations :=
  (checkWin_fields s).2.1

theorem checkWin_history (s : GameState) : (checkWin s).history = s.history :=
  (checkWin_fields s).1

theorem checkWin_tableaus (s : GameState) : (checkWin s).tableaus = s.tableaus :=
  (checkWin_fields s).2.2.1

theorem save_state_foundations (s : GameState) :
    (save_state s).foundations = s.foundations := rfl

theorem map_suit_execDrop (m : DropMove) (s : GameState) :
    ((execDrop m s).foundations).map (·.suit) = (s.foundations).map (·.suit) := by
  unfold execDrop
  split
  · rw [checkWin_foundations, map_suit_dropFlipStage, map_suit_dropScoreStage,
      map_suit_addRun, map_suit_removeRun, save_state_foundations]
  · rfl

theorem map_suit_dblClick (p : ClickSrc) (s : GameState) :
    ((dblClickMove p s).foundations).map (·.suit) = (s.foundations).map (·.suit) := by
  cases p with
  | wasteClick =>
      simp only [dblClickMove]
      split
      · rfl
      · split
        · rfl
        · simp only [checkWin_foundations]
          rw [map_suit_foundationAdd, save_state_foundations]
  | tableauClick i =>
      simp only [dblClickMove]
      split
      · rfl
      · split
        · rfl
        · simp only [checkWin_foundations]
          rw [map_suit_foundationAdd, save_state_foundations]

/-- C10: the foundation's pre-assigned suit marker plays no role in
`can_add` — the answer is the same whatever the marker is, an ace of any suit
is accepted by any empty foundation (marker matching or not), and no game
operation ever rewrites the markers assigned by `setup_piles`. -/
theorem foundation_suit_marker_ignored :
    (∀ (cards : List Card) (su1 su2 : Suit) (c : Card),
        foundationCanAdd ⟨cards, su1⟩ c = foundationCanAdd ⟨cards, su2⟩ c) ∧
    (∀ (marker aceSuit : Suit) (b : Bool),
        foundationCanAdd ⟨[], marker⟩ ⟨aceSuit, Rank.A, b⟩ = true) ∧
    (∀ (o : Op) (s : GameState),
        ((applyOp o s).foundations).map (·.suit) = (s.foundations).map (·.suit)) := by
  refine ⟨fun cards su1 su2 c => rfl, fun marker aceSuit b => by simp [foundationCanAdd], ?_⟩
  intro o s
  cases o with
  | drop m => exact map_suit_execDrop m s
  | draw =>
      show ((drawFromStock s).foundations).map (·.suit) = (s.foundations).map (·.suit)
      unfold drawFromStock drawStage
      split
      · rfl
      · split <;> rfl
  | dbl p => exact map_suit_dblClick p s
  | auto =>
      show ((autoMove s).foundations).map (·.suit) = (s.foundations).map (·.suit)
      unfold autoMove
      rw [checkWin_foundations, map_suit_autoLoop, save_state_foundations]
  | undoOp =>
      show (((undo s).2).foundations).map (·.suit) = (s.foundations).map (·.suit)
      unfold undo
      split
      · rfl
      · exact map_suit_restoreFoundations _ _
  | newGameOp d =>
      show ((newGameOn d s).foundations).map (·.suit) = (s.foundations).map (·.suit)
      simp only [newGameOn]
      rw [List.map_map]
      rfl

theorem save_state_stock (s : GameState) : (save_state s).stock = s.stock := rfl

theorem save_state_waste (s : GameState) : (save_state s).waste = s.waste := rfl

theorem save_state_score (s : GameState) : (save_state s).score = s.score := rfl

theorem save_state_tableaus (s : GameState) : (save_state s).tableaus = s.tableaus := rfl

/-- C4: with an empty stock and a non-empty waste, drawing recycles: the
waste empties, the stock receives exactly the former waste cards face-down in
reversed relative order (so later draws, which pop the stock from its top,
replay the original draw sequence), and the score drops by the recycle
penalty of 20, clamped at the floor of 0. -/
theorem recycle_spec (s : GameState) (hstock : s.stock = []) (hwaste : s.waste ≠ []) :
    (drawFromStock s).waste = [] ∧
    (drawFromStock s).stock = s.waste.reverse.map (fun c => { c with faceUp := false }) ∧
    (drawFromStock s).score = max 0 (s.score - 20) := by
  have h1 : (save_state s).stock.getLast? = none := by
    rw [save_state_stock, hstock]
    rfl
  have h2 : (save_state s).waste.isEmpty = false := by
    rw [save_state_waste]
    cases hw : s.waste with
    | nil => exact absurd hw hwaste
    | cons a l => rfl
  unfold drawFromStock drawStage
  rw [h1, h2]
  refine ⟨rfl, ?_, ?_⟩
  · rw [save_state_stock, save_state_waste, hstock]
    rfl
  · rw [save_state_score]
    show addScore s.score scoreRecycleWaste = max 0 (s.score - 20)
    unfold addScore scoreRecycleWaste
    rfl

/-- Witness for C4 at a concrete state: empty stock, three face-up waste
cards, score 7. -/
def recycleWitnessState : GameState :=
  { score := 7
    won := false
    stock := []
    waste := [⟨.hearts, .r2, true⟩, ⟨.clubs, .r5, true⟩, ⟨.spades, .K, true⟩]
    foundations := suitList.map (fun su => ⟨[], su⟩)
    tableaus := List.replicate 7 []
    history := [] }

theorem getD_updateAt_ne {α : Type} (f : α → α) (d : α) :
    ∀ (l : List α) (i j : Nat), i ≠ j → (updateAt j f l).getD i d = l.getD i d := by
  intro l
  induction l with
  | nil => intro i j h; simp [updateAt]
  | cons a rest ih =>
      intro i j h
      cases j with
      | zero =>
          cases i with
          | zero => exact absurd rfl h
          | succ n => simp [updateAt]
      | succ jm =>
          cases i with
          | zero => simp [updateAt]
          | succ im => simpa [updateAt] using ih im jm (by omega)

theorem getD_updateAt_self {α : Type} (f : α → α) (d : α) :
    ∀ (l : List α) (i : Nat), i < l.length → (updateAt i f l).getD i d = f (l.getD i d) := by
  intro l
  induction l with
  | nil => intro i h; simp at h
  | cons a rest ih =>
      intro i h
      cases i with
      | zero => simp [updateAt]
      | succ n => simpa [updateAt] using ih n (by simpa using h)

theorem lt_length_of_getD_ne_nil {α : Type} {l : List (List α)} {i : Nat}
    (h : l.getD i [] ≠ []) : i < l.length := by
  by_contra hc
  exact h (List.getD_eq_default _ _ (by omega))

theorem dragRun_ne_nil_of_legal (m : DropMove) (s : GameState)
    (h : legalDrop m s = true) : dragRun m.src s ≠ [] := by
  intro he
  unfold legalDrop at h
  rw [he] at h
  simp at h

theorem head?_faceUp_of_legal (m : DropMove) (s : GameState)
    (h : legalDrop m s = true) :
    ∃ c0, (dragRun m.src s).head? = some c0 ∧ c0.faceUp = true := by
  unfold legalDrop at h
  cases hh : (dragRun m.src s).head? with
  | none => rw [hh] at h; simp at h
  | some c0 =>
      rw [hh] at h
      simp only [Bool.and_eq_true] at h
      exact ⟨c0, rfl, h.1⟩

theorem checkWin_score (s : GameState) : (checkWin s).score = s.score :=
  (checkWin_fields s).2.2.2.1

theorem tableaus_dropScoreStage (src : DragSrc) (dst : DropDst) (n : Nat) (s : GameState) :
    (dropScoreStage src dst n s).tableaus = s.tableaus := by
  cases dst with
  | foundationDst j => rfl
  | tableauDst j => cases src <;> rfl

theorem flipTop_getLast? :
    ∀ (t : List Card), t ≠ [] →
      ∃ c, (flipTop t).getLast? = some c ∧ c.faceUp = true := by
  intro t
  induction t with
  | nil => intro h; exact absurd rfl h
  | cons a rest ih =>
      intro _
      cases rest with
      | nil => exact ⟨{ a with faceUp := true }, rfl, rfl⟩
      | cons b rest' =>
          obtain ⟨c, hc1, hc2⟩ := ih (by simp)
          refine ⟨c, ?_, hc2⟩
          show (a :: flipTop (b :: rest')).getLast? = some c
          cases hfl : flipTop (b :: rest') with
          | nil => exact absurd (congrArg List.length hfl) (by simp [length_flipTop])
          | cons x xs =>
              rw [hfl] at hc1
              rw [List.getLast?_cons_cons]
              exact hc1

/-- The reveal condition of the claim, read off the pre-move state: the
source is a tableau whose pile, after the dragged run (the cards from index
`k` up) is removed, is non-empty with a face-down top card. -/
def revealCond (m : DropMove) (s : GameState) : Bool :=
  match m.src with
  | .tableauSrc i k => needFlip ((s.tableaus.getD i []).take k)
  | _ => false

/-- The score table exactly as the spec states it: +10 per card moved to a
foundation; +5 for waste→tableau; −15 for foundation→tableau; 0 otherwise. -/
def specScoreDelta (src : DragSrc) (dst : DropDst) (n : Nat) : Int :=
  match dst with
  | .foundationDst _ => 10 * n
  | .tableauDst _ =>
      match src with
      | .wasteSrc => 5
      | .foundationSrc _ => -15
      | .tableauSrc _ _ => 0

theorem ne_nil_of_needFlip {l : List Card} (h : needFlip l = true) : l ≠ [] := by
  intro he
  rw [he] at h
  simp [needFlip] at h

theorem score_dropFlipStage_tableau (i k : Nat) (s : GameState) :
    (dropFlipStage (.tableauSrc i k) s).score =
      (if needFlip (s.tableaus.getD i []) then addScore s.score 5 else s.score) := by
  simp only [dropFlipStage]
  split <;> rfl

theorem tableaus_dropFlipStage_tableau (i k : Nat) (s : GameState) :
    (dropFlipStage (.tableauSrc i k) s).tableaus =
      (if needFlip (s.tableaus.getD i [])
       then updateAt i (fun _ => flipTop (s.tableaus.getD i [])) s.tableaus
       else s.tableaus) := by
  simp only [dropFlipStage]
  split <;> rfl

/-- C2: for every executed drag/drop move, the score evolves exactly by the
spec's table — +10 per card moved to a foundation, +5 for waste→tableau,
−15 for foundation→tableau, 0 otherwise — followed, when the source is a
tableau whose new top card after removal is face-down, by a further +5 reveal
bonus, each delta clamped at the floor of 0; and in the reveal case the
exposed card ends face-up. -/
theorem drop_score_spec (m : DropMove) (s : GameState)
    (hleg : legalDrop m s = true) (hsc : 0 ≤ s.score) :
    (execDrop m s).score =
      (if revealCond m s
       then max 0 (max 0 (s.score + specScoreDelta m.src m.dst (dragRun m.src s).length) + 5)
       else max 0 (s.score + specScoreDelta m.src m.dst (dragRun m.src s).length)) ∧
    (revealCond m s = true →
      ∃ i k c, m.src = .tableauSrc i k ∧
        ((execDrop m s).tableaus.getD i []).getLast? = some c ∧ c.faceUp = true) := by
  obtain ⟨src, dst⟩ := m
  unfold execDrop
  rw [if_pos hleg]
  cases src with
  | wasteSrc =>
      refine ⟨?_, fun hr => by simp [revealCond] at hr⟩
      rw [checkWin_score]
      cases dst with
      | foundationDst j => rfl
      | tableauDst j => rfl
  | foundationSrc i =>
      refine ⟨?_, fun hr => by simp [revealCond] at hr⟩
      rw [checkWin_score]
      cases dst with
      | foundationDst j => rfl
      | tableauDst j => rfl
  | tableauSrc i k =>
      have htne : s.tableaus.getD i [] ≠ [] := by
        intro he
        apply dragRun_ne_nil_of_legal ⟨.tableauSrc i k, dst⟩ s hleg
        show (s.tableaus.getD i []).drop k = []
        rw [he]
        simp
      have hi : i < s.tableaus.length := lt_length_of_getD_ne_nil htne
      cases dst with
      | foundationDst j =>
          have hXt :
              ((dropScoreStage (.tableauSrc i k) (.foundationDst j)
                  (dragRun (.tableauSrc i k) s).length
                  (addRun (.foundationDst j) (dragRun (.tableauSrc i k) s)
                    (removeRun (.tableauSrc i k) (save_state s)))).tableaus).getD i [] =
                (s.tableaus.getD i []).take k := by
            rw [tableaus_dropScoreStage]
            show (updateAt i (fun t => t.take k) s.tableaus).getD i [] = _
            exact getD_updateAt_self _ _ s.tableaus i hi
          constructor
          · rw [checkWin_score, score_dropFlipStage_tableau, hXt]
            rw [show revealCond ⟨.tableauSrc i k, .foundationDst j⟩ s =
              needFlip ((s.tableaus.getD i []).take k) from rfl]
            split <;> rfl
          · intro hr
            refine ⟨i, k, ?_⟩
            rw [checkWin_tableaus, tableaus_dropFlipStage_tableau, hXt]
            rw [show revealCond ⟨.tableauSrc i k, .foundationDst j⟩ s =
              needFlip ((s.tableaus.getD i []).take k) from rfl] at hr
            rw [if_pos hr]
            have hlen :
                (dropScoreStage (.tableauSrc i k) (.foundationDst j)
                  (dragRun (.tableauSrc i k) s).length
                  (addRun (.foundationDst j) (dragRun (.tableauSrc i k) s)
                    (removeRun (.tableauSrc i k) (save_state s)))).tableaus.length =
                  s.tableaus.length := by
              rw [tableaus_dropScoreStage]
              show (updateAt i (fun t => t.take k) s.tableaus).length = _
              exact length_updateAt _ _ _
            rw [getD_updateAt_self _ _ _ i (by rw [hlen]; exact hi)]
            obtain ⟨c, hc1, hc2⟩ := flipTop_getLast? _ (ne_nil_of_needFlip hr)
            exact ⟨c, rfl, hc1, hc2⟩
      | tableauDst j =>
          have hij : i ≠ j := by
            obtain ⟨c0, hc0, _⟩ := head?_faceUp_of_legal ⟨.tableauSrc i k, .tableauDst j⟩ s hleg
            unfold legalDrop at hleg
            rw [hc0] at hleg
            simp only [Bool.and_eq_true, decide_eq_true_eq] at hleg
            exact hleg.2.1.1
          have hXt :
              ((dropScoreStage (.tableauSrc i k) (.tableauDst j)
                  (dragRun (.tableauSrc i k) s).length
                  (addRun (.tableauDst j) (dragRun (.tableauSrc i k) s)
                    (removeRun (.tableauSrc i k) (save_state s)))).tableaus).getD i [] =
                (s.tableaus.getD i []).take k := by
            rw [tableaus_dropScoreStage]
            show (updateAt j (fun t => t ++ dragRun (.tableauSrc i k) s)
                (updateAt i (fun t => t.take k) s.tableaus)).getD i [] = _
            rw [getD_updateAt_ne _ _ _ i j hij]
            exact getD_updateAt_self _ _ s.tableaus i hi
          constructor
          · rw [checkWin_score, score_dropFlipStage_tableau, hXt]
            rw [show revealCond ⟨.tableauSrc i k, .tableauDst j⟩ s =
              needFlip ((s.tableaus.getD i []).take k) from rfl]
            have hz : max 0 (s.score + specScoreDelta (.tableauSrc i k) (.tableauDst j)
                (dragRun (.tableauSrc i k) s).length) = s.score := by
              show max 0 (s.score + 0) = s.score
              rw [add_zero]
              exact max_eq_right hsc
            rw [hz]
            split <;> rfl
          · intro hr
            refine ⟨i, k, ?_⟩
            rw [checkWin_tableaus, tableaus_dropFlipStage_tableau, hXt]
            rw [show revealCond ⟨.tableauSrc i k, .tableauDst j⟩ s =
              needFlip ((s.tableaus.getD i []).take k) from rfl] at hr
            rw [if_pos hr]
            have hlen :
                (dropScoreStage (.tableauSrc i k) (.tableauDst j)
                  (dragRun (.tableauSrc i k) s).length
                  (addRun (.tableauDst j) (dragRun (.tableauSrc i k) s)
                    (removeRun (.tableauSrc i k) (save_state s)))).tableaus.length =
                  s.tableaus.length := by
              rw [tableaus_dropScoreStage]
              show (updateAt j (fun t => t ++ dragRun (.tableauSrc i k) s)
                  (updateAt i (fun t => t.take k) s.tableaus)).length = _
              rw [length_updateAt, length_updateAt]
            rw [getD_updateAt_self _ _ _ i (by rw [hlen]; exact hi)]
            obtain ⟨c, hc1, hc2⟩ := flipTop_getLast? _ (ne_nil_of_needFlip hr)
            exact ⟨c, rfl, hc1, hc2⟩

theorem restoreFoundations_of_suits :
    ∀ (fs gs : List FoundationPile),
      fs.map (·.suit) = gs.map (·.suit) →
      restoreFoundations fs (gs.map (·.cards)) = gs := by
  intro fs
  induction fs with
  | nil =>
      intro gs h
      cases gs with
      | nil => rfl
      | cons g gs' => simp at h
  | cons f fs' ih =>
      intro gs h
      cases gs with
      | nil => simp at h
      | cons g gs' =>
          simp only [List.map_cons, List.cons.injEq] at h
          show (⟨g.cards, f.suit⟩ : FoundationPile) :: restoreFoundations fs' (gs'.map (·.cards)) =
            g :: gs'
          rw [h.1, ih gs' h.2]

theorem restoreTableaus_of_length :
    ∀ (ts us : List (List Card)), ts.length = us.length → restoreTableaus ts us = us := by
  intro ts
  induction ts with
  | nil =>
      intro us h
      cases us with
      | nil => rfl
      | cons u us' => simp at h
  | cons t ts' ih =>
      intro us h
      cases us with
      | nil => simp at h
      | cons u us' =>
          show u :: restoreTableaus ts' us' = u :: us'
          rw [ih us' (by simpa using h)]

theorem save_state_history_getLast? (s : GameState) :
    (save_state s).history.getLast? = some (snapshotOf s) := by
  show (if 100 < (s.history ++ [snapshotOf s]).length
        then (s.history ++ [snapshotOf s]).drop 1
        else (s.history ++ [snapshotOf s])).getLast? = some (snapshotOf s)
  split
  · next hlong =>
      have h1 : 1 ≤ s.history.length := by
        simp only [List.length_append, List.length_cons, List.length_nil] at hlong
        omega
      rw [List.drop_append_of_le_length h1, getLast?_concat_eq]
  · rw [getLast?_concat_eq]

/-- Any state whose history ends with a snapshot of `s` and whose foundation
suit markers and tableau count still match `s` undoes back to `s`'s piles and
score exactly, reporting success — this is what every move leaves behind. -/
theorem undo_of_shape (s t : GameState)
    (hh : t.history = (save_state s).history)
    (hsuit : (t.foundations).map (·.suit) = (s.foundations).map (·.suit))
    (htab : t.tableaus.length = s.tableaus.length) :
    (undo t).1 = true ∧
    (undo t).2.stock = s.stock ∧
    (undo t).2.waste = s.waste ∧
    (undo t).2.foundations = s.foundations ∧
    (undo t).2.tableaus = s.tableaus ∧
    (undo t).2.score = s.score := by
  have hlast : t.history.getLast? = some (snapshotOf s) := by
    rw [hh]
    exact save_state_history_getLast? s
  unfold undo
  rw [hlast]
  refine ⟨rfl, rfl, rfl, ?_, ?_, rfl⟩
  · show restoreFoundations t.foundations (s.foundations.map (·.cards)) = s.foundations
    exact restoreFoundations_of_suits _ _ hsuit
  · show restoreTableaus t.tableaus s.tableaus = s.tableaus
    exact restoreTableaus_of_length _ _ htab

theorem history_removeRun (src : DragSrc) (s : GameState) :
    (removeRun src s).history = s.history := by
  cases src <;> rfl

theorem history_addRun (dst : DropDst) (run : List Card) (s : GameState) :
    (addRun dst run s).history = s.history := by
  cases dst <;> rfl

theorem history_dropScoreStage (src : DragSrc) (dst : DropDst) (n : Nat) (s : GameState) :
    (dropScoreStage src dst n s).history = s.history := by
  cases dst with
  | foundationDst j => rfl
  | tableauDst j => cases src <;> rfl

theorem history_dropFlipStage (src : DragSrc) (s : GameState) :
    (dropFlipStage src s).history = s.history := by
  cases src with
  | wasteSrc => rfl
  | foundationSrc i => rfl
  | tableauSrc i k =>
      simp only [dropFlipStage]
      split <;> rfl

theorem tabLen_removeRun (src : DragSrc) (s : GameState) :
    (removeRun src s).tableaus.length = s.tableaus.length := by
  cases src with
  | wasteSrc => rfl
  | foundationSrc i => rfl
  | tableauSrc i k =>
      show (updateAt i (fun t => t.take k) s.tableaus).length = _
      exact length_updateAt _ _ _

theorem tabLen_addRun (dst : DropDst) (run : List Card) (s : GameState) :
    (addRun dst run s).tableaus.length = s.tableaus.length := by
  cases dst with
  | foundationDst j => rfl
  | tableauDst j =>
      show (updateAt j (fun t => t ++ run) s.tableaus).length = _
      exact length_updateAt _ _ _

theorem tabLen_dropScoreStage (src : DragSrc) (dst : DropDst) (n : Nat) (s : GameState) :
    (dropScoreStage src dst n s).tableaus.length = s.tableaus.length := by
  rw [tableaus_dropScoreStage]

theorem tabLen_dropFlipStage (src : DragSrc) (s : GameState) :
    (dropFlipStage src s).tableaus.length = s.tableaus.length := by
  cases src with
  | wasteSrc => rfl
  | foundationSrc i => rfl
  | tableauSrc i k =>
      simp only [dropFlipStage]
      split
      · show (updateAt i _ s.tableaus).length = _
        exact length_updateAt _ _ _
      · rfl

theorem execDrop_shape (m : DropMove) (s : GameState) (h : legalDrop m s = true) :
    (execDrop m s).history = (save_state s).history ∧
    ((execDrop m s).foundations).map (·.suit) = (s.foundations).map (·.suit) ∧
    (execDrop m s).tableaus.length = s.tableaus.length := by
  unfold execDrop
  rw [if_pos h]
  refine ⟨?_, ?_, ?_⟩
  · rw [checkWin_history, history_dropFlipStage, history_dropScoreStage, history_addRun,
      history_removeRun]
  · rw [checkWin_foundations, map_suit_dropFlipStage, map_suit_dropScoreStage,
      map_suit_addRun, map_suit_removeRun, save_state_foundations]
  · rw [checkWin_tableaus, tabLen_dropFlipStage, tabLen_dropScoreStage, tabLen_addRun,
      tabLen_removeRun, save_state_tableaus]

theorem drawStage_shape (s : GameState) :
    (drawStage s).history = s.history ∧
    ((drawStage s).foundations).map (·.suit) = (s.foundations).map (·.suit) ∧
    (drawStage s).tableaus.length = s.tableaus.length := by
  unfold drawStage
  split
  · exact ⟨rfl, rfl, rfl⟩
  · split <;> exact ⟨rfl, rfl, rfl⟩

theorem dblClick_shape (p : ClickSrc) (s : GameState)
    (h : legalMove (.dbl p) s = true) :
    (dblClickMove p s).history = (save_state s).history ∧
    ((dblClickMove p s).foundations).map (·.suit) = (s.foundations).map (·.suit) ∧
    (dblClickMove p s).tableaus.length = s.tableaus.length := by
  cases p with
  | wasteClick =>
      simp only [legalMove] at h
      simp only [dblClickMove]
      split
      · next heq => rw [heq] at h; simp at h
      · next card heq =>
          rw [heq] at h
          have h' : (firstAccepting s.foundations card).isSome = true := h
          split
          · next heq2 => rw [heq2] at h'; simp at h'
          · next j heq2 =>
              refine ⟨?_, ?_, ?_⟩
              · rw [checkWin_history]
              · rw [checkWin_foundations]
                show ((foundationAdd j card (save_state s).foundations).map (·.suit)) = _
                rw [map_suit_foundationAdd, save_state_foundations]
              · rw [checkWin_tableaus]
                rfl
  | tableauClick i =>
      simp only [legalMove] at h
      simp only [dblClickMove]
      split
      · next heq => rw [heq] at h; simp at h
      · next card heq =>
          rw [heq] at h
          have h' : (firstAccepting s.foundations card).isSome = true := h
          split
          · next heq2 => rw [heq2] at h'; simp at h'
          · next j heq2 =>
              refine ⟨?_, ?_, ?_⟩
              · rw [checkWin_history]
              · rw [checkWin_foundations]
                show ((foundationAdd j card (save_state s).foundations).map (·.suit)) = _
                rw [map_suit_foundationAdd, save_state_foundations]
              · rw [checkWin_tableaus]
                show (updateAt i _ (save_state s).tableaus).length = _
                rw [length_updateAt, save_state_tableaus]

theorem autoMove_shape (s : GameState) :
    (autoMove s).history = (save_state s).history ∧
    ((autoMove s).foundations).map (·.suit) = (s.foundations).map (·.suit) ∧
    (autoMove s).tableaus.length = s.tableaus.length := by
  unfold autoMove
  refine ⟨?_, ?_, ?_⟩
  · rw [checkWin_history, history_autoLoop]
  · rw [checkWin_foundations, map_suit_autoLoop, save_state_foundations]
  · rw [checkWin_tableaus, tableaus_length_autoLoop, save_state_tableaus]

/-- C1: after any move that executes (a legal drop, a stock click, a
successful double-click auto-move, or an auto-complete run), `undo()` returns
`true` and restores every pile — card contents, order and face-up flags —
and the score to their exact pre-move values. -/
theorem undo_roundtrip (o : Op) (s : GameState) (h : legalMove o s = true) :
    (undo (applyOp o s)).1 = true ∧
    (undo (applyOp o s)).2.stock = s.stock ∧
    (undo (applyOp o s)).2.waste = s.waste ∧
    (undo (applyOp o s)).2.foundations = s.foundations ∧
    (undo (applyOp o s)).2.tableaus = s.tableaus ∧
    (undo (applyOp o s)).2.score = s.score := by
  cases o with
  | undoOp => simp [legalMove] at h
  | newGameOp d => simp [legalMove] at h
  | drop m =>
      obtain ⟨h1, h2, h3⟩ := execDrop_shape m s h
      exact undo_of_shape s _ h1 h2 h3
  | draw =>
      obtain ⟨h1, h2, h3⟩ := drawStage_shape (save_state s)
      exact undo_of_shape s _ h1 h2 h3
  | dbl p =>
      obtain ⟨h1, h2, h3⟩ := dblClick_shape p s h
      exact undo_of_shape s _ h1 h2 h3
  | auto =>
      obtain ⟨h1, h2, h3⟩ := autoMove_shape s
      exact undo_of_shape s _ h1 h2 h3

theorem undo_roundtrip_witness :
    (undo (applyOp .draw (initGame stdDeckIds))).1 = true ∧
    (undo (applyOp .draw (initGame stdDeckIds))).2.stock = (initGame stdDeckIds).stock ∧
    (undo (applyOp .draw (initGame stdDeckIds))).2.waste = (initGame stdDeckIds).waste ∧
    (undo (applyOp .draw (initGame stdDeckIds))).2.foundations = (initGame stdDeckIds).foundations ∧
    (undo (applyOp .draw (initGame stdDeckIds))).2.tableaus = (initGame stdDeckIds).tableaus ∧
    (undo (applyOp .draw (initGame stdDeckIds))).2.score = (initGame stdDeckIds).score :=
  undo_roundtrip .draw (initGame stdDeckIds) rfl

theorem dealStep_foldl_getD :
    ∀ (pcs : List ((Nat × Nat) × CardId)) (tabs : List (List Card)) (j : Nat),
      j < tabs.length →
      (pcs.foldl dealStep tabs).getD j [] =
        tabs.getD j [] ++
          (pcs.filter (fun pc => pc.1.2 == j)).map
            (fun pc => (⟨pc.2.1, pc.2.2, pc.1.1 = pc.1.2⟩ : Card)) := by
  intro pcs
  induction pcs with
  | nil => intro tabs j hj; simp
  | cons pc rest ih =>
      intro tabs j hj
      show (rest.foldl dealStep (dealStep tabs pc)).getD j [] = _
      have hlen : (dealStep tabs pc).length = tabs.length := length_updateAt _ _ _
      rw [ih (dealStep tabs pc) j (by rw [hlen]; exact hj)]
      by_cases hpc : pc.1.2 = j
      · have hstep : (dealStep tabs pc).getD j [] =
            tabs.getD j [] ++ [⟨pc.2.1, pc.2.2, pc.1.1 = pc.1.2⟩] := by
          unfold dealStep
          rw [hpc]
          exact getD_updateAt_self _ _ tabs j hj
        rw [hstep, List.filter_cons]
        simp [hpc]
      · have hstep : (dealStep tabs pc).getD j [] = tabs.getD j [] := by
          unfold dealStep
          exact getD_updateAt_ne _ _ tabs j pc.1.2 (fun he => hpc he.symm)
        rw [hstep, List.filter_cons]
        simp [hpc]

theorem filter_zip_map {α β γ : Type} :
    ∀ (a : List α) (b : List β) (Q : α → Bool) (f : α → γ),
      a.length ≤ b.length →
      ((a.zip b).filter (fun p => Q p.1)).map (fun p => f p.1) = (a.filter Q).map f := by
  intro a
  induction a with
  | nil => intro b Q f h; simp
  | cons x a' ih =>
      intro b Q f h
      cases b with
      | nil => simp at h
      | cons y b' =>
          have hih := ih b' Q f (by simpa using h)
          by_cases hq : Q x = true
          · simp [List.filter_cons, hq, hih]
          · simp [List.filter_cons, hq, hih]

theorem filter_zip_length {α β : Type} (a : List α) (b : List β) (Q : α → Bool)
    (h : a.length ≤ b.length) :
    ((a.zip b).filter (fun p => Q p.1)).length = (a.filter Q).length := by
  have := congrArg List.length (filter_zip_map a b Q (fun x => x) h)
  simpa using this

/-- The tableau pile `j` dealt by `new_game` from the deal stream: row `j` of
the triangular deal, cards face-down except the last. -/
theorem dealTableaus_getD (stream : List CardId) (j : Nat) (hj : j < 7)
    (hs : 28 ≤ stream.length) :
    (dealTableaus stream).getD j [] =
      ((dealPairs.zip (stream.take 28)).filter (fun pc => pc.1.2 == j)).map
        (fun pc => (⟨pc.2.1, pc.2.2, pc.1.1 = pc.1.2⟩ : Card)) := by
  unfold dealTableaus
  rw [dealStep_foldl_getD _ _ j (by simpa using hj)]
  have : (List.replicate 7 ([] : List Card)).getD j [] = [] := by
    rw [List.getD_eq_getElem?_getD, List.getElem?_replicate]
    split <;> rfl
  rw [this]
  rfl

/-- C7: after `new_game()` on any state and a full 52-card deck, tableau `j`
holds exactly `j+1` cards with only the last one face-up, the stock holds
exactly 24 face-down cards, the waste and all foundations are empty, the
score is 0, the win flag is false and the undo history is empty. -/
theorem new_game_spec (d : List CardId) (s : GameState) (h : d.length = 52) :
    (∀ j, j < 7 →
      ((newGameOn d s).tableaus.getD j []).length = j + 1 ∧
      ((newGameOn d s).tableaus.getD j []).map Card.faceUp =
        List.replicate j false ++ [true]) ∧
    (newGameOn d s).stock.length = 24 ∧
    (∀ c ∈ (newGameOn d s).stock, c.faceUp = false) ∧
    (newGameOn d s).waste = [] ∧
    (∀ f ∈ (newGameOn d s).foundations, f.cards = []) ∧
    (newGameOn d s).score = 0 ∧
    (newGameOn d s).won = false ∧
    (newGameOn d s).history = [] := by
  have hsl : (dealStream d).length = 52 := by
    unfold dealStream
    simpa using h
  have hdp : dealPairs.length = 28 := by decide
  have htk : dealPairs.length ≤ ((dealStream d).take 28).length := by
    rw [hdp, List.length_take, hsl]
    omega
  have key : ∀ j, j < 7 →
      ((dealPairs.filter (fun pr => pr.2 == j)).length = j + 1 ∧
       (dealPairs.filter (fun pr => pr.2 == j)).map (fun pr => decide (pr.1 = pr.2)) =
         List.replicate j false ++ [true]) := by decide
  refine ⟨?_, ?_, ?_, rfl, ?_, rfl, rfl, rfl⟩
  · intro j hj
    have hget : (newGameOn d s).tableaus.getD j [] =
        ((dealPairs.zip ((dealStream d).take 28)).filter (fun pc => pc.1.2 == j)).map
          (fun pc => (⟨pc.2.1, pc.2.2, pc.1.1 = pc.1.2⟩ : Card)) :=
      dealTableaus_getD (dealStream d) j hj (by omega)
    constructor
    · rw [hget, List.length_map,
        filter_zip_length dealPairs ((dealStream d).take 28) (fun pr => pr.2 == j) htk]
      exact (key j hj).1
    · rw [hget, List.map_map]
      have := filter_zip_map dealPairs ((dealStream d).take 28) (fun pr => pr.2 == j)
        (fun pr => decide (pr.1 = pr.2)) htk
      rw [show ((fun (c : Card) => c.faceUp) ∘
          (fun pc : (Nat × Nat) × CardId => (⟨pc.2.1, pc.2.2, pc.1.1 = pc.1.2⟩ : Card))) =
          (fun pc : (Nat × Nat) × CardId => decide (pc.1.1 = pc.1.2)) from rfl]
      rw [this]
      exact (key j hj).2
  · show (((dealStream d).drop 28).map (fun c => (⟨c.1, c.2, false⟩ : Card))).length = 24
    rw [List.length_map, List.length_drop, hsl]
  · intro c hc
    simp only [newGameOn, List.mem_map] at hc
    obtain ⟨x, _, hx⟩ := hc
    rw [← hx]
  · intro f hf
    simp only [newGameOn, List.mem_map] at hf
    obtain ⟨x, _, hx⟩ := hf
    rw [← hx]

theorem new_game_spec_witness :
    ((newGameOn stdDeckIds setupState).tableaus.getD 3 []).length = 4 ∧
    ((newGameOn stdDeckIds setupState).tableaus.getD 3 []).map Card.faceUp =
      List.replicate 3 false ++ [true] ∧
    (newGameOn stdDeckIds setupState).stock.length = 24 ∧
    (newGameOn stdDeckIds setupState).score = 0 := by
  have h := new_game_spec stdDeckIds setupState (by decide)
  exact ⟨(h.1 3 (by decide)).1, (h.1 3 (by decide)).2, h.2.1, h.2.2.2.2.2.1⟩

/-- The relation between a card and the card directly above it that every
reachable tableau pile satisfies pairwise: if the lower card is face-up then
the one above is face-up too (face-down cards only sit below face-up ones),
has the opposite color, and has value exactly one less.  So the face-up cards
form a suffix which is a strictly descending alternating-color chain. -/
def belowRel (a b : Card) : Prop :=
  a.faceUp = true → (b.faceUp = true ∧ b.color ≠ a.color ∧ b.value + 1 = a.value)

/-- The per-tableau invariant: the pairwise chain plus a face-up top card. -/
def tabOK (t : List Card) : Prop :=
  List.Chain' belowRel t ∧ (∀ c, t.getLast? = some c → c.faceUp = true)

/-- The pile conditions every reachable state (and every snapshot in its
history) satisfies: all tableaus are `tabOK`, and all waste and foundation
cards are face-up. -/
def pilesOK (ts : List (List Card)) (w : List Card) (fs : List (List Card)) : Prop :=
  (∀ t ∈ ts, tabOK t) ∧ (∀ c ∈ w, c.faceUp = true) ∧ (∀ cs ∈ fs, ∀ c ∈ cs, c.faceUp = true)

def invPiles (s : GameState) : Prop :=
  pilesOK s.tableaus s.waste (s.foundations.map (·.cards))

/-- The full induction invariant: the pile conditions for the live piles and
for every history snapshot, and non-negative scores throughout. -/
def Inv (s : GameState) : Prop :=
  invPiles s ∧
  (∀ sn ∈ s.history, pilesOK sn.tableaus sn.waste sn.foundations ∧ 0 ≤ sn.score) ∧
  0 ≤ s.score

theorem mem_of_getLast?_eq {α : Type} {l : List α} {a : α} (h : l.getLast? = some a) :
    a ∈ l := by
  obtain ⟨hne, heq⟩ := List.mem_getLast?_eq_getLast (l := l) (x := a) h
  rw [heq]
  exact List.getLast_mem hne

theorem getD_mem_of_lt {α : Type} :
    ∀ (l : List α) (i : Nat) (d : α), i < l.length → l.getD i d ∈ l := by
  intro l
  induction l with
  | nil => intro i d h; simp at h
  | cons a rest ih =>
      intro i d h
      cases i with
      | zero => simp
      | succ n =>
          simp only [List.getD_cons_succ]
          exact List.mem_cons_of_mem _ (ih n d (by simpa using h))

theorem chain_all_faceUp :
    ∀ (l : List Card), List.Chain' belowRel l →
      (∀ c, l.head? = some c → c.faceUp = true) → ∀ c ∈ l, c.faceUp = true := by
  intro l
  induction l with
  | nil => intro _ _ c hc; cases hc
  | cons a rest ih =>
      intro hch hhd c hc
      have ha : a.faceUp = true := hhd a rfl
      cases hc with
      | head => exact ha
      | tail _ hc' =>
          cases rest with
          | nil => cases hc'
          | cons b rest' =>
              rw [List.chain'_cons] at hch
              exact ih hch.2 (fun c' hc'' => by
                cases hc''
                exact (hch.1 ha).1) c hc'

theorem flipTop_concat :
    ∀ (rest : List Card) (c : Card),
      flipTop (rest ++ [c]) = rest ++ [{ c with faceUp := true }] := by
  intro rest
  induction rest with
  | nil => intro c; rfl
  | cons a rest' ih =>
      intro c
      cases hr : rest' ++ [c] with
      | nil => exact absurd hr (by simp)
      | cons x xs =>
          show flipTop (a :: (rest' ++ [c])) = _
          rw [hr]
          show a :: flipTop (x :: xs) = _
          rw [← hr, ih c]
          rfl

theorem needFlip_false_top {t : List Card} (h : needFlip t = false) :
    ∀ c, t.getLast? = some c → c.faceUp = true := by
  intro c hc
  unfold needFlip at h
  rw [hc] at h
  simpa using h

theorem needFlip_true_top {t : List Card} (h : needFlip t = true) :
    ∃ c, t.getLast? = some c ∧ c.faceUp = false := by
  unfold needFlip at h
  cases hc : t.getLast? with
  | none => rw [hc] at h; simp at h
  | some c =>
      rw [hc] at h
      exact ⟨c, rfl, by simpa using h⟩

/-- Flipping a face-down top card of a pairwise-chained pile yields a `tabOK`
pile: the card below the flipped one must itself be face-down (downward
closure), so no new chain constraint arises. -/
theorem tabOK_flipFix (t : List Card) (hch : List.Chain' belowRel t) :
    tabOK (if needFlip t then flipTop t else t) := by
  by_cases hf : needFlip t = true
  · rw [if_pos hf]
    obtain ⟨c, hc, hcdown⟩ := needFlip_true_top hf
    rcases List.eq_nil_or_concat t with ht | ⟨rest, top, ht⟩
    · rw [ht] at hc; simp at hc
    · rw [List.concat_eq_append] at ht
      subst ht
      rw [getLast?_concat_eq] at hc
      have htop : top = c := by injection hc
      subst htop
      rw [flipTop_concat]
      constructor
      · rw [List.chain'_append] at hch ⊢
        refine ⟨hch.1, List.chain'_singleton _, ?_⟩
        intro x hx y hy
        simp only [List.head?_cons, Option.mem_def, Option.some.injEq] at hy
        subst hy
        intro hxup
        have hbr := hch.2.2 x hx top (by simp)
        exact absurd (hbr hxup).1 (by simp [hcdown])
      · intro c' hc'
        rw [getLast?_concat_eq] at hc'
        injection hc' with hc''
        rw [← hc'']
  · rw [if_neg hf]
    exact ⟨hch, needFlip_false_top (by simpa using hf)⟩

theorem tableauCanAdd_link {t : List Card} {c top : Card}
    (h : tableauCanAdd t c = true) (htop : t.getLast? = some top) :
    top.faceUp = true ∧ c.color ≠ top.color ∧ c.value + 1 = top.value := by
  rcases List.eq_nil_or_concat t with ht | ⟨rest, top', ht⟩
  · rw [ht] at htop; simp at htop
  · rw [List.concat_eq_append] at ht
    subst ht
    rw [getLast?_concat_eq] at htop
    injection htop with he
    rw [he] at h
    rw [tableauCanAdd_concat] at h
    by_cases hf : top.faceUp = true
    · by_cases hcol : c.color = top.color
      · rw [if_neg (by simp [hf]), if_pos hcol] at h
        exact absurd h (by simp)
      · by_cases hv : c.value = top.value - 1
        · have htv : 1 ≤ top.value := rankValue_pos top.rank
          have hcv : 1 ≤ c.value := rankValue_pos c.rank
          exact ⟨hf, hcol, by omega⟩
        · rw [if_neg (by simp [hf]), if_neg hcol, if_pos hv] at h
          exact absurd h (by simp)
    · rw [if_pos (by simpa using hf)] at h
      exact absurd h (by simp)

/-- Appending a legal, face-up, chained run onto a `tabOK` tableau keeps it
`tabOK`. -/
theorem tabOK_append {t run : List Card} {c0 : Card}
    (ht : tabOK t) (hchr : List.Chain' belowRel run)
    (hhead : run.head? = some c0)
    (hall : ∀ c ∈ run, c.faceUp = true)
    (hca : tableauCanAdd t c0 = true) :
    tabOK (t ++ run) := by
  have hrne : run ≠ [] := by intro he; rw [he] at hhead; simp at hhead
  constructor
  · rw [List.chain'_append]
    refine ⟨ht.1, hchr, ?_⟩
    intro x hx y hy
    rw [Option.mem_def] at hx hy
    rw [hhead] at hy
    injection hy with hy'
    subst hy'
    obtain ⟨hfx, hcol, hval⟩ := tableauCanAdd_link hca hx
    intro _
    exact ⟨hall c0 (List.mem_of_mem_head? hhead), hcol, hval⟩
  · intro c hc
    rw [List.getLast?_append_of_ne_nil _ hrne] at hc
    exact hall c (mem_of_getLast?_eq hc)

theorem forall_mem_updateAt {α : Type} (P : α → Prop) (f : α → α) :
    ∀ (l : List α) (i : Nat), (∀ x ∈ l, P x) → (∀ x ∈ l, P (f x)) →
      ∀ x ∈ updateAt i f l, P x := by
  intro l
  induction l with
  | nil => intro i _ _ x hx; simp [updateAt] at hx
  | cons a rest ih =>
      intro i hl hf x hx
      cases i with
      | zero =>
          simp only [updateAt] at hx
          cases hx with
          | head => exact hf a (by simp)
          | tail _ hx' => exact hl x (List.mem_cons_of_mem _ hx')
      | succ n =>
          simp only [updateAt] at hx
          cases hx with
          | head => exact hl a (by simp)
          | tail _ hx' =>
              exact ih n (fun y hy => hl y (List.mem_cons_of_mem _ hy))
                (fun y hy => hf y (List.mem_cons_of_mem _ hy)) x hx'

/-- A pile whose face-flag image is `replicate j false ++ [true]` (the shape
`new_game` deals) is `tabOK`. -/
theorem tabOK_of_faceUp_map :
    ∀ (t : List Card) (j : Nat),
      t.map Card.faceUp = List.replicate j false ++ [true] → tabOK t := by
  intro t
  induction t with
  | nil => intro j h; exact absurd (congrArg List.length h) (by simp)
  | cons a rest ih =>
      intro j h
      cases j with
      | zero =>
          simp only [List.replicate, List.nil_append, List.map_cons] at h
          have ha : a.faceUp = true := by
            have := congrArg List.head? h
            simpa using this
          have hrest : rest = [] := by
            have := congrArg List.tail h
            simp at this
            exact this
          subst hrest
          exact ⟨List.chain'_singleton _, fun c hc => by
            simp only [List.getLast?_singleton, Option.some.injEq] at hc
            rw [← hc]; exact ha⟩
      | succ n =>
          simp only [List.replicate, List.cons_append, List.map_cons,
            List.cons.injEq] at h
          have ha : a.faceUp = false := h.1
          have hr := ih n h.2
          constructor
          · cases rest with
            | nil => exact List.chain'_singleton _
            | cons b rest' =>
                rw [List.chain'_cons]
                exact ⟨fun hup => absurd hup (by simp [ha]), hr.1⟩
          · intro c hc
            cases rest with
            | nil => exact absurd (congrArg List.length h.2) (by simp)
            | cons b rest' =>
                rw [List.getLast?_cons_cons] at hc
                exact hr.2 c hc

theorem addScore_nonneg (a b : Int) : 0 ≤ addScore a b := le_max_left 0 _

theorem updateAt_updateAt {α : Type} (f g : α → α) :
    ∀ (l : List α) (i : Nat),
      updateAt i f (updateAt i g l) = updateAt i (fun x => f (g x)) l := by
  intro l
  induction l with
  | nil => intro i; simp [updateAt]
  | cons a rest ih =>
      intro i
      cases i with
      | zero => rfl
      | succ n => simp [updateAt, ih n]

theorem updateAt_comm {α : Type} (f g : α → α) :
    ∀ (l : List α) (i j : Nat), i ≠ j →
      updateAt i f (updateAt j g l) = updateAt j g (updateAt i f l) := by
  intro l
  induction l with
  | nil => intro i j _; simp [updateAt]
  | cons a rest ih =>
      intro i j hij
      cases i with
      | zero =>
          cases j with
          | zero => exact absurd rfl hij
          | succ jm => rfl
      | succ im =>
          cases j with
          | zero => rfl
          | succ jm => simp [updateAt, ih im jm (by omega)]

theorem mem_updateAt_or {α : Type} (d : α) (f : α → α) :
    ∀ (l : List α) (i : Nat) (x : α),
      x ∈ updateAt i f l → x ∈ l ∨ x = f (l.getD i d) := by
  intro l
  induction l with
  | nil => intro i x hx; simp [updateAt] at hx
  | cons a rest ih =>
      intro i x hx
      cases i with
      | zero =>
          simp only [updateAt] at hx
          cases hx with
          | head => right; rfl
          | tail _ hx' => left; exact List.mem_cons_of_mem _ hx'
      | succ n =>
          simp only [updateAt] at hx
          cases hx with
          | head => left; simp
          | tail _ hx' =>
              rcases ih n x hx' with h1 | h2
              · left; exact List.mem_cons_of_mem _ h1
              · right; simpa using h2

/-- Appending an all-face-up run to one foundation keeps every foundation
card face-up. -/
theorem foundations_ok_append {fs : List FoundationPile} {run : List Card} {j : Nat}
    (hf : ∀ cs ∈ fs.map (·.cards), ∀ c ∈ cs, c.faceUp = true)
    (hrun : ∀ c ∈ run, c.faceUp = true) :
    ∀ cs ∈ ((updateAt j (fun f => ⟨f.cards ++ run, f.suit⟩) fs).map (·.cards)),
      ∀ c ∈ cs, c.faceUp = true := by
  intro cs hcs
  rw [List.mem_map] at hcs
  obtain ⟨x, hx, hxe⟩ := hcs
  subst hxe
  revert hx
  refine fun hx => forall_mem_updateAt (fun fp => ∀ c ∈ fp.cards, c.faceUp = true)
    _ fs j ?_ ?_ x hx
  · intro y hy
    exact hf y.cards (List.mem_map_of_mem _ hy)
  · intro y hy c hcmem
    rcases List.mem_append.mp hcmem with h1 | h2
    · exact hf y.cards (List.mem_map_of_mem _ hy) c h1
    · exact hrun c h2

theorem foundations_ok_add1 {fs : List FoundationPile} {card : Card} {j : Nat}
    (hf : ∀ cs ∈ fs.map (·.cards), ∀ c ∈ cs, c.faceUp = true)
    (hc : card.faceUp = true) :
    ∀ cs ∈ ((foundationAdd j card fs).map (·.cards)), ∀ c ∈ cs, c.faceUp = true := by
  unfold foundationAdd
  exact foundations_ok_append hf (fun c' hc' => by
    rw [List.mem_singleton.mp hc']
    exact hc)

theorem wasteStep_cases' (s : GameState) :
    (wasteStep s).2 = s ∨
    ∃ j card, s.waste.getLast? = some card ∧
      (wasteStep s).2 =
        { s with waste := s.waste.dropLast
                 foundations := foundationAdd j card s.foundations
                 score := addScore s.score 10 } := by
  simp only [wasteStep]
  split
  · left; rfl
  · next card heq =>
      split
      · left; rfl
      · next j heq2 => right; exact ⟨j, card, heq, rfl⟩

theorem mem_restoreTableaus :
    ∀ (ts us : List (List Card)) (x : List Card),
      x ∈ restoreTableaus ts us → x ∈ ts ∨ x ∈ us := by
  intro ts
  induction ts with
  | nil => intro us x hx; simp [restoreTableaus] at hx
  | cons t ts' ih =>
      intro us x hx
      cases us with
      | nil => left; exact hx
      | cons u us' =>
          cases hx with
          | head => right; simp
          | tail _ hx' =>
              rcases ih us' x hx' with h1 | h2
              · left; exact List.mem_cons_of_mem _ h1
              · right; exact List.mem_cons_of_mem _ h2

theorem mem_restoreFoundations_cards :
    ∀ (fs : List FoundationPile) (cs : List (List Card)) (x : List Card),
      x ∈ (restoreFoundations fs cs).map (·.cards) → x ∈ fs.map (·.cards) ∨ x ∈ cs := by
  intro fs
  induction fs with
  | nil => intro cs x hx; simp [restoreFoundations] at hx
  | cons f fs' ih =>
      intro cs x hx
      cases cs with
      | nil => left; exact hx
      | cons c cs' =>
          simp only [restoreFoundations, List.map_cons] at hx
          cases hx with
          | head => right; simp
          | tail _ hx' =>
              rcases ih cs' x hx' with h1 | h2
              · left; exact List.mem_cons_of_mem _ h1
              · right; exact List.mem_cons_of_mem _ h2

theorem inv_save_state (s : GameState) (h : Inv s) : Inv (save_state s) := by
  obtain ⟨hp, hh, hs⟩ := h
  refine ⟨hp, ?_, hs⟩
  intro sn hsn
  have hsn' : sn ∈ s.history ++ [snapshotOf s] := by
    revert hsn
    show sn ∈ (if 100 < (s.history ++ [snapshotOf s]).length
               then (s.history ++ [snapshotOf s]).drop 1
               else (s.history ++ [snapshotOf s])) → _
    split
    · intro hx; exact List.drop_subset _ _ hx
    · intro hx; exact hx
  rcases List.mem_append.mp hsn' with h1 | h2
  · exact hh sn h1
  · have he : sn = snapshotOf s := by simpa using h2
    subst he
    exact ⟨hp, hs⟩

theorem chain_take {α : Type} {R : α → α → Prop} (k : Nat) {l : List α}
    (h : List.Chain' R l) : List.Chain' R (l.take k) :=
  List.Chain'.take h k

theorem chain_dropLast {α : Type} {R : α → α → Prop} {l : List α} (h : List.Chain' R l) :
    List.Chain' R l.dropLast := by
  rw [List.dropLast_eq_take]
  exact List.Chain'.take h _

theorem mem_of_mem_dropLast {α : Type} {a : α} {l : List α} (h : a ∈ l.dropLast) : a ∈ l :=
  List.dropLast_subset l h

theorem inv_checkWin (s : GameState) (h : Inv s) : Inv (checkWin s) := by
  unfold checkWin
  split
  · exact h
  · exact h

theorem tabs_ok_update {ts : List (List Card)} {i : Nat} {t' : List Card}
    (hts : ∀ t ∈ ts, tabOK t) (ht' : tabOK t') :
    ∀ t ∈ updateAt i (fun _ => t') ts, tabOK t :=
  forall_mem_updateAt tabOK _ ts i hts (fun _ _ => ht')

theorem inv_doTabMove (i j : Nat) (s : GameState) (h : Inv s) : Inv (doTabMove i j s) := by
  obtain ⟨⟨ht, hw, hf⟩, hh, hs⟩ := h
  unfold doTabMove
  cases heq : (s.tableaus.getD i []).getLast? with
  | none => exact ⟨⟨ht, hw, hf⟩, hh, hs⟩
  | some card =>
      have htne : s.tableaus.getD i [] ≠ [] := by
        intro he; rw [he] at heq; simp at heq
      have hi : i < s.tableaus.length := lt_length_of_getD_ne_nil htne
      have hmem : s.tableaus.getD i [] ∈ s.tableaus := getD_mem_of_lt _ i [] hi
      have hcardUp : card.faceUp = true := (ht _ hmem).2 card heq
      have hch1 : List.Chain' belowRel (s.tableaus.getD i []).dropLast :=
        chain_dropLast (ht _ hmem).1
      refine ⟨⟨?_, hw, ?_⟩, hh, ?_⟩
      · exact tabs_ok_update ht (tabOK_flipFix _ hch1)
      · exact foundations_ok_add1 hf hcardUp
      · show 0 ≤ (if needFlip (s.tableaus.getD i []).dropLast
                  then addScore (addScore s.score 10) 5
                  else addScore s.score 10)
        split <;> exact addScore_nonneg _ _

theorem inv_wasteStep (s : GameState) (h : Inv s) : Inv (wasteStep s).2 := by
  rcases wasteStep_cases' s with he | ⟨j, card, hc, he⟩
  · rw [he]; exact h
  · rw [he]
    obtain ⟨⟨ht, hw, hf⟩, hh, hs⟩ := h
    have hcup : card.faceUp = true := hw card (mem_of_getLast?_eq hc)
    refine ⟨⟨ht, ?_, ?_⟩, hh, addScore_nonneg _ _⟩
    · intro c hcm
      exact hw c (mem_of_mem_dropLast hcm)
    · exact foundations_ok_add1 hf hcup

theorem inv_tabLoop (idxs : List Nat) (s : GameState) (moved : Bool) (h : Inv s) :
    Inv (tabLoop s moved idxs).2 := by
  rcases tabLoop_cases idxs s moved with he | ⟨i, j, he⟩ <;> rw [he]
  · exact h
  · exact inv_doTabMove i j s h

theorem inv_onePass (s : GameState) (h : Inv s) : Inv (onePass s).2 := by
  unfold onePass
  exact inv_tabLoop _ _ _ (inv_wasteStep s h)

theorem inv_autoLoop (s : GameState) (h : Inv s) : Inv (autoLoop s) :=
  autoLoop_induction Inv (fun t ht => inv_onePass t ht) (outside s) s le_rfl h

theorem inv_drawStage (s : GameState) (h : Inv s) : Inv (drawStage s) := by
  obtain ⟨⟨ht, hw, hf⟩, hh, hs⟩ := h
  unfold drawStage
  split
  · next card heq =>
      refine ⟨⟨ht, ?_, hf⟩, hh, hs⟩
      intro c hcm
      rcases List.mem_append.mp hcm with h1 | h2
      · exact hw c h1
      · rw [List.mem_singleton.mp h2]
  · next heq =>
      split
      · exact ⟨⟨ht, hw, hf⟩, hh, hs⟩
      · refine ⟨⟨ht, ?_, hf⟩, hh, addScore_nonneg _ _⟩
        intro c hcm
        exact absurd hcm (List.not_mem_nil c)

theorem inv_dblClick (p : ClickSrc) (s : GameState) (h : Inv s) : Inv (dblClickMove p s) := by
  have hss := inv_save_state s h
  obtain ⟨⟨ht, hw, hf⟩, hh, hs⟩ := h
  obtain ⟨_, hh', _⟩ := hss
  cases p with
  | wasteClick =>
      simp only [dblClickMove]
      split
      · exact ⟨⟨ht, hw, hf⟩, hh, hs⟩
      · next card heq =>
          split
          · exact ⟨⟨ht, hw, hf⟩, hh, hs⟩
          · next j heq2 =>
              apply inv_checkWin
              have hcup : card.faceUp = true := hw card (mem_of_getLast?_eq heq)
              refine ⟨⟨ht, ?_, ?_⟩, hh', addScore_nonneg _ _⟩
              · intro c hcm
                exact hw c (mem_of_mem_dropLast hcm)
              · exact foundations_ok_add1 hf hcup
  | tableauClick i =>
      simp only [dblClickMove]
      split
      · exact ⟨⟨ht, hw, hf⟩, hh, hs⟩
      · next card heq =>
          split
          · exact ⟨⟨ht, hw, hf⟩, hh, hs⟩
          · next j heq2 =>
              apply inv_checkWin
              have htne : s.tableaus.getD i [] ≠ [] := by
                intro he; rw [he] at heq; simp at heq
              have hi : i < s.tableaus.length := lt_length_of_getD_ne_nil htne
              have hmem : s.tableaus.getD i [] ∈ s.tableaus := getD_mem_of_lt _ i [] hi
              have hcup : card.faceUp = true := (ht _ hmem).2 card heq
              have hch1 : List.Chain' belowRel (s.tableaus.getD i []).dropLast :=
                chain_dropLast (ht _ hmem).1
              refine ⟨⟨?_, hw, ?_⟩, hh', ?_⟩
              · exact tabs_ok_update ht (tabOK_flipFix _ hch1)
              · exact foundations_ok_add1 hf hcup
              · show 0 ≤ (if needFlip (s.tableaus.getD i []).dropLast
                          then addScore (addScore s.score 10) 5
                          else addScore s.score 10)
                split <;> exact addScore_nonneg _ _

theorem inv_undo (s : GameState) (h : Inv s) : Inv (undo s).2 := by
  obtain ⟨⟨ht, hw, hf⟩, hh, hs⟩ := h
  unfold undo
  cases heq : s.history.getLast? with
  | none => exact ⟨⟨ht, hw, hf⟩, hh, hs⟩
  | some snap =>
      obtain ⟨⟨ht', hw', hf'⟩, hs'⟩ := hh snap (mem_of_getLast?_eq heq)
      refine ⟨⟨?_, hw', ?_⟩, ?_, hs'⟩
      · intro t htm
        rcases mem_restoreTableaus _ _ t htm with h1 | h2
        · exact ht t h1
        · exact ht' t h2
      · intro cs hcs
        rcases mem_restoreFoundations_cards _ _ cs hcs with h1 | h2
        · exact hf cs h1
        · exact hf' cs h2
      · intro sn hsn
        exact hh sn (mem_of_mem_dropLast hsn)

theorem dealStep_foldl_length :
    ∀ (pcs : List ((Nat × Nat) × CardId)) (tabs : List (List Card)),
      (pcs.foldl dealStep tabs).length = tabs.length := by
  intro pcs
  induction pcs with
  | nil => intro tabs; rfl
  | cons pc rest ih =>
      intro tabs
      show (rest.foldl dealStep (dealStep tabs pc)).length = _
      rw [ih (dealStep tabs pc)]
      exact length_updateAt _ _ _

/-- The face-flag shape of each dealt tableau pile: `j` face-down cards then
one face-up card. -/
theorem dealTableaus_faceUp (d : List CardId) (hlen : d.length = 52) (j : Nat) (hj : j < 7) :
    ((dealTableaus (dealStream d)).getD j []).map Card.faceUp =
      List.replicate j false ++ [true] := by
  have hsl : (dealStream d).length = 52 := by
    unfold dealStream
    simpa using hlen
  have hdp : dealPairs.length = 28 := by decide
  have htk : dealPairs.length ≤ ((dealStream d).take 28).length := by
    rw [hdp, List.length_take, hsl]
    omega
  have key : ∀ j, j < 7 →
      (dealPairs.filter (fun pr => pr.2 == j)).map (fun pr => decide (pr.1 = pr.2)) =
        List.replicate j false ++ [true] := by decide
  rw [dealTableaus_getD (dealStream d) j hj (by omega), List.map_map]
  have := filter_zip_map dealPairs ((dealStream d).take 28) (fun pr => pr.2 == j)
    (fun pr => decide (pr.1 = pr.2)) htk
  rw [show ((fun (c : Card) => c.faceUp) ∘
      (fun pc : (Nat × Nat) × CardId => (⟨pc.2.1, pc.2.2, pc.1.1 = pc.1.2⟩ : Card))) =
      (fun pc : (Nat × Nat) × CardId => decide (pc.1.1 = pc.1.2)) from rfl]
  rw [this]
  exact key j hj

theorem inv_newGameOn (d : List CardId) (s : GameState) (hlen : d.length = 52) :
    Inv (newGameOn d s) := by
  refine ⟨⟨?_, ?_, ?_⟩, ?_, le_refl 0⟩
  · intro t htm
    have h7 : (dealTableaus (dealStream d)).length = 7 := by
      unfold dealTableaus
      rw [dealStep_foldl_length]
      simp
    have htm' : t ∈ dealTableaus (dealStream d) := htm
    rw [List.mem_iff_getElem] at htm'
    obtain ⟨j, hj, hje⟩ := htm'
    have hjd : (dealTableaus (dealStream d)).getD j [] = t := by
      rw [List.getD_eq_getElem?_getD, List.getElem?_eq_getElem hj]
      simpa using hje
    have hj7 : j < 7 := by rw [h7] at hj; exact hj
    rw [← hjd]
    exact tabOK_of_faceUp_map _ j (dealTableaus_faceUp d hlen j hj7)
  · intro c hc
    exact absurd hc (List.not_mem_nil c)
  · intro cs hcs
    simp only [newGameOn, List.map_map, List.mem_map] at hcs
    obtain ⟨x, _, hxe⟩ := hcs
    rw [← hxe]
    intro c hc
    exact absurd hc (List.not_mem_nil c)
  · intro sn hsn
    exact absurd hsn (List.not_mem_nil sn)

theorem waste_dropFlipStage (src : DragSrc) (s : GameState) :
    (dropFlipStage src s).waste = s.waste := by
  cases src with
  | wasteSrc => rfl
  | foundationSrc i => rfl
  | tableauSrc i k =>
      simp only [dropFlipStage]
      split <;> rfl

theorem foundations_dropFlipStage (src : DragSrc) (s : GameState) :
    (dropFlipStage src s).foundations = s.foundations := by
  cases src with
  | wasteSrc => rfl
  | foundationSrc i => rfl
  | tableauSrc i k =>
      simp only [dropFlipStage]
      split <;> rfl

theorem legal_tabDst {src : DragSrc} {j : Nat} {s : GameState} {c0 : Card}
    (hleg : legalDrop ⟨src, .tableauDst j⟩ s = true)
    (hc0 : (dragRun src s).head? = some c0) :
    j < s.tableaus.length ∧ tableauCanAdd (s.tableaus.getD j []) c0 = true := by
  unfold legalDrop at hleg
  rw [hc0] at hleg
  simp only [Bool.and_eq_true, decide_eq_true_eq] at hleg
  exact ⟨hleg.2.1.2, hleg.2.2⟩

theorem chain_singleton_or_nil :
    ∀ (l : List Card), l.length ≤ 1 → List.Chain' belowRel l := by
  intro l hl
  cases l with
  | nil => exact List.chain'_nil
  | cons a rest =>
      cases rest with
      | nil => exact List.chain'_singleton _
      | cons b rest' => simp at hl

theorem inv_execDrop (m : DropMove) (s : GameState) (h : Inv s) : Inv (execDrop m s) := by
  obtain ⟨⟨ht, hw, hf⟩, hh, hs⟩ := h
  have hh' := (inv_save_state s ⟨⟨ht, hw, hf⟩, hh, hs⟩).2.1
  obtain ⟨src, dst⟩ := m
  unfold execDrop
  split
  case isFalse => exact ⟨⟨ht, hw, hf⟩, hh, hs⟩
  case isTrue hleg =>
  obtain ⟨c0, hc0head, hc0up⟩ := head?_faceUp_of_legal ⟨src, dst⟩ s hleg
  apply inv_checkWin
  have hrall : ∀ c ∈ dragRun src s, c.faceUp = true := by
    cases src with
    | wasteSrc =>
        intro c hc
        simp only [dragRun] at hc
        cases hwl : s.waste.getLast? with
        | none => rw [hwl] at hc; simp at hc
        | some c' =>
            rw [hwl] at hc
            rw [List.mem_singleton.mp hc]
            exact hw c' (mem_of_getLast?_eq hwl)
    | foundationSrc i =>
        intro c hc
        simp only [dragRun] at hc
        cases hfl : (s.foundations.getD i fEmpty).cards.getLast? with
        | none => rw [hfl] at hc; simp at hc
        | some c' =>
            rw [hfl] at hc
            rw [List.mem_singleton.mp hc]
            by_cases hi : i < s.foundations.length
            · exact hf _ (List.mem_map_of_mem _ (getD_mem_of_lt _ i fEmpty hi))
                c' (mem_of_getLast?_eq hfl)
            · rw [List.getD_eq_default _ _ (by omega)] at hfl
              simp [fEmpty] at hfl
    | tableauSrc i k =>
        have htne : s.tableaus.getD i [] ≠ [] := by
          intro he
          apply dragRun_ne_nil_of_legal ⟨.tableauSrc i k, dst⟩ s hleg
          show (s.tableaus.getD i []).drop k = []
          rw [he]
          simp
        have hi : i < s.tableaus.length := lt_length_of_getD_ne_nil htne
        have hch : List.Chain' belowRel (dragRun (.tableauSrc i k) s) :=
          (ht _ (getD_mem_of_lt _ i [] hi)).1.suffix (List.drop_suffix k _)
        exact chain_all_faceUp _ hch (fun c hcc => by
          rw [hc0head] at hcc
          injection hcc with he
          rw [← he]
          exact hc0up)
  have hrch : List.Chain' belowRel (dragRun src s) := by
    cases src with
    | wasteSrc =>
        apply chain_singleton_or_nil
        simp only [dragRun]
        cases s.waste.getLast? <;> simp
    | foundationSrc i =>
        apply chain_singleton_or_nil
        simp only [dragRun]
        cases (s.foundations.getD i fEmpty).cards.getLast? <;> simp
    | tableauSrc i k =>
        have htne : s.tableaus.getD i [] ≠ [] := by
          intro he
          apply dragRun_ne_nil_of_legal ⟨.tableauSrc i k, dst⟩ s hleg
          show (s.tableaus.getD i []).drop k = []
          rw [he]
          simp
        have hi : i < s.tableaus.length := lt_length_of_getD_ne_nil htne
        exact (ht _ (getD_mem_of_lt _ i [] hi)).1.suffix (List.drop_suffix k _)
  cases src with
  | wasteSrc =>
      cases dst with
      | foundationDst j =>
          refine ⟨⟨ht, ?_, ?_⟩, hh', addScore_nonneg _ _⟩
          · intro c hcm
            exact hw c (mem_of_mem_dropLast hcm)
          · exact foundations_ok_append hf hrall
      | tableauDst j =>
          obtain ⟨hjlen, hca⟩ := legal_tabDst hleg hc0head
          refine ⟨⟨?_, ?_, hf⟩, hh', addScore_nonneg _ _⟩
          · intro t' ht'
            rcases mem_updateAt_or [] _ s.tableaus j t' ht' with h1 | h2
            · exact ht t' h1
            · rw [h2]
              exact tabOK_append (ht _ (getD_mem_of_lt _ j [] hjlen)) hrch hc0head hrall hca
          · intro c hcm
            exact hw c (mem_of_mem_dropLast hcm)
  | foundationSrc i =>
      have hfrem : ∀ cs ∈ ((updateAt i (fun f => ⟨f.cards.dropLast, f.suit⟩)
          s.foundations).map (·.cards)), ∀ c ∈ cs, c.faceUp = true := by
        intro cs hcs
        rw [List.mem_map] at hcs
        obtain ⟨x, hx, hxe⟩ := hcs
        subst hxe
        revert hx
        refine fun hx => forall_mem_updateAt (fun fp => ∀ c ∈ fp.cards, c.faceUp = true)
          _ s.foundations i ?_ ?_ x hx
        · intro y hy
          exact hf y.cards (List.mem_map_of_mem _ hy)
        · intro y hy c hcmem
          exact hf y.cards (List.mem_map_of_mem _ hy) c
            (mem_of_mem_dropLast hcmem)
      cases dst with
      | foundationDst j =>
          refine ⟨⟨ht, hw, ?_⟩, hh', addScore_nonneg _ _⟩
          exact foundations_ok_append hfrem hrall
      | tableauDst j =>
          obtain ⟨hjlen, hca⟩ := legal_tabDst hleg hc0head
          refine ⟨⟨?_, hw, hfrem⟩, hh', addScore_nonneg _ _⟩
          intro t' ht'
          rcases mem_updateAt_or [] _ s.tableaus j t' ht' with h1 | h2
          · exact ht t' h1
          · rw [h2]
            exact tabOK_append (ht _ (getD_mem_of_lt _ j [] hjlen)) hrch hc0head hrall hca
  | tableauSrc i k =>
      have htne : s.tableaus.getD i [] ≠ [] := by
        intro he
        apply dragRun_ne_nil_of_legal ⟨.tableauSrc i k, dst⟩ s hleg
        show (s.tableaus.getD i []).drop k = []
        rw [he]
        simp
      have hi : i < s.tableaus.length := lt_length_of_getD_ne_nil htne
      have hchtake : List.Chain' belowRel ((s.tableaus.getD i []).take k) :=
        chain_take k (ht _ (getD_mem_of_lt _ i [] hi)).1
      have hffix := tabOK_flipFix ((s.tableaus.getD i []).take k) hchtake
      cases dst with
      | foundationDst j =>
          have hXt :
              ((dropScoreStage (.tableauSrc i k) (.foundationDst j)
                  (dragRun (.tableauSrc i k) s).length
                  (addRun (.foundationDst j) (dragRun (.tableauSrc i k) s)
                    (removeRun (.tableauSrc i k) (save_state s)))).tableaus).getD i [] =
                (s.tableaus.getD i []).take k := by
            rw [tableaus_dropScoreStage]
            show (updateAt i (fun t => t.take k) s.tableaus).getD i [] = _
            exact getD_updateAt_self _ _ s.tableaus i hi
          refine ⟨⟨?_, ?_, ?_⟩, ?_, ?_⟩
          · show ∀ t' ∈ (dropFlipStage (.tableauSrc i k) _).tableaus, tabOK t'
            rw [tableaus_dropFlipStage_tableau, hXt]
            by_cases hnf : needFlip ((s.tableaus.getD i []).take k) = true
            · rw [if_pos hnf]
              rw [if_pos hnf] at hffix
              rw [tableaus_dropScoreStage]
              show ∀ t' ∈ updateAt i (fun _ => flipTop ((s.tableaus.getD i []).take k))
                (updateAt i (fun t => t.take k) s.tableaus), tabOK t'
              rw [updateAt_updateAt]
              intro t' ht'
              rcases mem_updateAt_or [] _ s.tableaus i t' ht' with h1 | h2
              · exact ht t' h1
              · rw [h2]
                exact hffix
            · rw [if_neg hnf]
              rw [if_neg hnf] at hffix
              rw [tableaus_dropScoreStage]
              show ∀ t' ∈ updateAt i (fun t => t.take k) s.tableaus, tabOK t'
              intro t' ht'
              rcases mem_updateAt_or [] _ s.tableaus i t' ht' with h1 | h2
              · exact ht t' h1
              · rw [h2]
                exact hffix
          · show ∀ c ∈ (dropFlipStage (.tableauSrc i k) _).waste, c.faceUp = true
            rw [waste_dropFlipStage]
            exact hw
          · show ∀ cs ∈ ((dropFlipStage (.tableauSrc i k) _).foundations).map (·.cards),
              ∀ c ∈ cs, c.faceUp = true
            rw [foundations_dropFlipStage]
            exact foundations_ok_append hf hrall
          · show ∀ sn ∈ (dropFlipStage (.tableauSrc i k) _).history,
              pilesOK sn.tableaus sn.waste sn.foundations ∧ 0 ≤ sn.score
            rw [history_dropFlipStage]
            exact hh'
          · show 0 ≤ (dropFlipStage (.tableauSrc i k) _).score
            rw [score_dropFlipStage_tableau]
            split
            · exact addScore_nonneg _ _
            · exact addScore_nonneg _ _
      | tableauDst j =>
          obtain ⟨hjlen, hca⟩ := legal_tabDst hleg hc0head
          have hij : i ≠ j := by
            unfold legalDrop at hleg
            rw [hc0head] at hleg
            simp only [Bool.and_eq_true, decide_eq_true_eq] at hleg
            exact hleg.2.1.1
          have hXt :
              ((dropScoreStage (.tableauSrc i k) (.tableauDst j)
                  (dragRun (.tableauSrc i k) s).length
                  (addRun (.tableauDst j) (dragRun (.tableauSrc i k) s)
                    (removeRun (.tableauSrc i k) (save_state s)))).tableaus).getD i [] =
                (s.tableaus.getD i []).take k := by
            rw [tableaus_dropScoreStage]
            show (updateAt j (fun t => t ++ dragRun (.tableauSrc i k) s)
                (updateAt i (fun t => t.take k) s.tableaus)).getD i [] = _
            rw [getD_updateAt_ne _ _ _ i j hij]
            exact getD_updateAt_self _ _ s.tableaus i hi
          have hdest : tabOK ((s.tableaus.getD j []) ++ dragRun (.tableauSrc i k) s) :=
            tabOK_append (ht _ (getD_mem_of_lt _ j [] hjlen)) hrch hc0head hrall hca
          refine ⟨⟨?_, ?_, ?_⟩, ?_, ?_⟩
          · show ∀ t' ∈ (dropFlipStage (.tableauSrc i k) _).tableaus, tabOK t'
            rw [tableaus_dropFlipStage_tableau, hXt]
            by_cases hnf : needFlip ((s.tableaus.getD i []).take k) = true
            · rw [if_pos hnf]
              rw [if_pos hnf] at hffix
              rw [tableaus_dropScoreStage]
              show ∀ t' ∈ updateAt i (fun _ => flipTop ((s.tableaus.getD i []).take k))
                (updateAt j (fun t => t ++ dragRun (.tableauSrc i k) s)
                  (updateAt i (fun t => t.take k) s.tableaus)), tabOK t'
              rw [updateAt_comm _ _ _ j i (fun he => hij he.symm), updateAt_updateAt]
              intro t' ht'
              rcases mem_updateAt_or [] _ _ i t' ht' with h1 | h2
              · rcases mem_updateAt_or [] _ s.tableaus j t' h1 with h3 | h4
                · exact ht t' h3
                · rw [h4]
                  exact hdest
              · rw [h2]
                exact hffix
            · rw [if_neg hnf]
              rw [if_neg hnf] at hffix
              rw [tableaus_dropScoreStage]
              show ∀ t' ∈ updateAt j (fun t => t ++ dragRun (.tableauSrc i k) s)
                (updateAt i (fun t => t.take k) s.tableaus), tabOK t'
              intro t' ht'
              rcases mem_updateAt_or [] _ _ j t' ht' with h1 | h2
              · rcases mem_updateAt_or [] _ s.tableaus i t' h1 with h3 | h4
                · exact ht t' h3
                · rw [h4]
                  exact hffix
              · rw [h2]
                rw [getD_updateAt_ne _ _ _ j i (fun he => hij he.symm)]
                exact hdest
          · show ∀ c ∈ (dropFlipStage (.tableauSrc i k) _).waste, c.faceUp = true
            rw [waste_dropFlipStage]
            exact hw
          · show ∀ cs ∈ ((dropFlipStage (.tableauSrc i k) _).foundations).map (·.cards),
              ∀ c ∈ cs, c.faceUp = true
            rw [foundations_dropFlipStage]
            exact hf
          · show ∀ sn ∈ (dropFlipStage (.tableauSrc i k) _).history,
              pilesOK sn.tableaus sn.waste sn.foundations ∧ 0 ≤ sn.score
            rw [history_dropFlipStage]
            exact hh'
          · show 0 ≤ (dropFlipStage (.tableauSrc i k) _).score
            rw [score_dropFlipStage_tableau]
            split
            · exact addScore_nonneg _ _
            · exact hs

/-- The master invariant: every reachable game state satisfies the pile,
history and score conditions of `Inv`. -/
theorem reachable_inv : ∀ (s : GameState), Reachable s → Inv s := by
  intro s h
  induction h with
  | base d hperm =>
      exact inv_newGameOn d setupState (by rw [hperm.length_eq]; decide)
  | step o s' hr hvalid ih =>
      cases o with
      | drop m => exact inv_execDrop m s' ih
      | draw => exact inv_drawStage (save_state s') (inv_save_state s' ih)
      | dbl p => exact inv_dblClick p s' ih
      | auto => exact inv_checkWin _ (inv_autoLoop _ (inv_save_state s' ih))
      | undoOp => exact inv_undo s' ih
      | newGameOp d =>
          have hperm : d.Perm stdDeckIds := hvalid
          exact inv_newGameOn d s' (by rw [hperm.length_eq]; decide)

/-- C8: in every reachable game state the score is non-negative — every
score write either resets to 0, restores an earlier (non-negative) score, or
goes through the clamped `add_score`. -/
theorem score_nonneg (s : GameState) (h : Reachable s) : 0 ≤ s.score :=
  (reachable_inv s h).2.2

theorem score_nonneg_witness : 0 ≤ (initGame stdDeckIds).score :=
  score_nonneg _ (Reachable.base stdDeckIds (List.Perm.refl _))

/-- C9: in every reachable game state, every tableau pile satisfies
`belowRel` pairwise: face-up cards form a suffix, and each face-up card
sitting on a face-up card has the opposite color and value exactly one less
— the maximal face-up suffix is a strictly descending alternating-color
chain, and every operation preserves this. -/
theorem tableau_chain_invariant (s : GameState) (h : Reachable s) :
    ∀ t ∈ s.tableaus, List.Chain' belowRel t :=
  fun t htm => ((reachable_inv s h).1.1 t htm).1

theorem tableau_chain_invariant_witness :
    List.Chain' belowRel ((initGame stdDeckIds).tableaus.getD 6 []) :=
  tableau_chain_invariant _ (Reachable.base stdDeckIds (List.Perm.refl _)) _
    (getD_mem_of_lt _ 6 [] (by decide))

theorem won_save_state (s : GameState) : (save_state s).won = s.won := rfl

theorem won_drawStage (s : GameState) : (drawStage s).won = s.won := by
  unfold drawStage
  split
  · rfl
  · split <;> rfl

theorem won_removeRun (src : DragSrc) (s : GameState) :
    (removeRun src s).won = s.won := by
  cases src <;> rfl

theorem won_addRun (dst : DropDst) (run : List Card) (s : GameState) :
    (addRun dst run s).won = s.won := by
  cases dst <;> rfl

theorem won_dropScoreStage (src : DragSrc) (dst : DropDst) (n : Nat) (s : GameState) :
    (dropScoreStage src dst n s).won = s.won := by
  cases dst with
  | foundationDst j => rfl
  | tableauDst j => cases src <;> rfl

theorem won_dropFlipStage (src : DragSrc) (s : GameState) :
    (dropFlipStage src s).won = s.won := by
  cases src with
  | wasteSrc => rfl
  | foundationSrc i => rfl
  | tableauSrc i k =>
      simp only [dropFlipStage]
      split <;> rfl

theorem won_doTabMove (i j : Nat) (s : GameState) : (doTabMove i j s).won = s.won := by
  unfold doTabMove
  split <;> rfl

theorem won_wasteStep (s : GameState) : (wasteStep s).2.won = s.won := by
  rcases wasteStep_cases s with h | ⟨j, c, h⟩ <;> rw [h]

theorem won_onePass (s : GameState) : (onePass s).2.won = s.won := by
  unfold onePass
  rcases tabLoop_cases (List.range (wasteStep s).2.tableaus.length) (wasteStep s).2 (wasteStep s).1
    with h | ⟨i, j, h⟩
  · rw [h, won_wasteStep]
  · rw [h, won_doTabMove, won_wasteStep]

theorem won_autoLoop (s : GameState) : (autoLoop s).won = s.won := by
  exact autoLoop_induction (fun t => t.won = s.won)
    (fun t ht => by
      show (onePass t).2.won = s.won
      rw [won_onePass]; exact ht) (outside s) s le_rfl rfl

theorem dblClickMove_eq_waste (s : GameState) :
    dblClickMove .wasteClick s = s ∨
    ∃ card j, dblClickMove .wasteClick s =
      checkWin { save_state s with
                 waste := (save_state s).waste.dropLast
                 foundations := foundationAdd j card (save_state s).foundations
                 score := addScore (save_state s).score 10 } := by
  simp only [dblClickMove]
  split
  · left; rfl
  · next card heq =>
      split
      · left; rfl
      · next j heq2 => right; exact ⟨card, j, rfl⟩

theorem dblClickMove_eq_tab (i : Nat) (s : GameState) :
    dblClickMove (.tableauClick i) s = s ∨
    ∃ card j, dblClickMove (.tableauClick i) s =
      checkWin { save_state s with
                 tableaus := updateAt i (fun _ =>
                     if needFlip ((s.tableaus.getD i []).dropLast)
                     then flipTop ((s.tableaus.getD i []).dropLast)
                     else (s.tableaus.getD i []).dropLast) (save_state s).tableaus
                 foundations := foundationAdd j card (save_state s).foundations
                 score := if needFlip ((s.tableaus.getD i []).dropLast)
                          then addScore (addScore (save_state s).score 10) 5
                          else addScore (save_state s).score 10 } := by
  simp only [dblClickMove]
  split
  · left; rfl
  · next card heq =>
      split
      · left; rfl
      · next j heq2 => right; exact ⟨card, j, rfl⟩

theorem checkWin_won_true {t : GameState} (h : (checkWin t).won = true) :
    t.won = true ∨ ∀ fp ∈ t.foundations, fp.cards.length = 13 := by
  unfold checkWin at h
  split at h
  · next hall =>
      right
      intro fp hfp
      have := List.all_eq_true.mp hall fp hfp
      simpa using this
  · left
    exact h

theorem won_true_of_checkWin {u t : GameState} (he : u = checkWin t) (htw : t.won = false)
    (htrue : u.won = true) : ∀ fp ∈ u.foundations, fp.cards.length = 13 := by
  subst he
  rcases checkWin_won_true htrue with h1 | h2
  · rw [htw] at h1
    exact absurd h1 (by simp)
  · rw [checkWin_foundations]
    exact h2

/-- C3 (amended): the win flag is false right after `new_game()` and after
any successful `undo()` (one that pops a snapshot), and an operation can only
turn it from false to true when all four foundations hold 13 cards in the
resulting state.  The original claim's if-and-only-if over all reachable
states fails: once set, the flag survives later moves that take a foundation
apart (see the counterexample trace). -/
theorem win_flag_amended :
    (∀ (d : List CardId) (s : GameState), (newGameOn d s).won = false) ∧
    (∀ s : GameState, (undo s).1 = true → ((undo s).2).won = false) ∧
    (∀ (o : Op) (s : GameState), s.won = false → (applyOp o s).won = true →
      ∀ fp ∈ (applyOp o s).foundations, fp.cards.length = 13) := by
  refine ⟨fun d s => rfl, ?_, ?_⟩
  · intro s h1
    unfold undo at h1 ⊢
    split
    · next heq => rw [heq] at h1; simp at h1
    · rfl
  · intro o s hfalse htrue
    cases o with
    | drop m =>
        by_cases hleg : legalDrop m s = true
        · have he : applyOp (Op.drop m) s =
              checkWin (dropFlipStage m.src
                (dropScoreStage m.src m.dst (dragRun m.src s).length
                  (addRun m.dst (dragRun m.src s) (removeRun m.src (save_state s))))) := by
            show execDrop m s = _
            unfold execDrop
            rw [if_pos hleg]
          have htw : (dropFlipStage m.src
              (dropScoreStage m.src m.dst (dragRun m.src s).length
                (addRun m.dst (dragRun m.src s) (removeRun m.src (save_state s))))).won =
              false := by
            rw [won_dropFlipStage, won_dropScoreStage, won_addRun, won_removeRun,
              won_save_state]
            exact hfalse
          exact won_true_of_checkWin he htw htrue
        · have he : applyOp (Op.drop m) s = s := by
            show execDrop m s = s
            unfold execDrop
            rw [if_neg hleg]
          rw [he] at htrue
          rw [hfalse] at htrue
          exact absurd htrue (by simp)
    | draw =>
        have he : (applyOp Op.draw s).won = s.won := by
          show (drawStage (save_state s)).won = s.won
          rw [won_drawStage, won_save_state]
        rw [he, hfalse] at htrue
        exact absurd htrue (by simp)
    | dbl p =>
        cases p with
        | wasteClick =>
            rw [show applyOp (Op.dbl .wasteClick) s = dblClickMove .wasteClick s from rfl]
              at htrue ⊢
            rcases dblClickMove_eq_waste s with he | ⟨card, j, he⟩
            · rw [he, hfalse] at htrue
              exact absurd htrue (by simp)
            · rw [he] at htrue ⊢
              exact won_true_of_checkWin rfl hfalse htrue
        | tableauClick i =>
            rw [show applyOp (Op.dbl (.tableauClick i)) s =
              dblClickMove (.tableauClick i) s from rfl] at htrue ⊢
            rcases dblClickMove_eq_tab i s with he | ⟨card, j, he⟩
            · rw [he, hfalse] at htrue
              exact absurd htrue (by simp)
            · rw [he] at htrue ⊢
              exact won_true_of_checkWin rfl hfalse htrue
    | auto =>
        have htw : (autoLoop (save_state s)).won = false := by
          rw [won_autoLoop, won_save_state]
          exact hfalse
        exact won_true_of_checkWin rfl htw htrue
    | undoOp =>
        have he : ((undo s).2).won = true → s.won = true := by
          unfold undo
          split
          · exact fun h => h
          · intro h
            exact absurd h (by simp)
        rw [hfalse] at he
        exact absurd (he htrue) (by simp)
    | newGameOp d =>
        exact absurd htrue (by simp [applyOp, newGameOn])

/-- A deck (given via its deal stream, i.e. in reverse) from which the game
is won by simple top-card moves: tableaus carry all diamonds and hearts plus
the two lowest clubs, the stock feeds the remaining clubs and all spades in
ascending order. -/
def cexStream : List CardId :=
  [(Suit.diamonds, Rank.K), (Suit.clubs, Rank.r2), (Suit.diamonds, Rank.Q),
   (Suit.diamonds, Rank.r9), (Suit.diamonds, Rank.r5), (Suit.hearts, Rank.K),
   (Suit.hearts, Rank.r7),
   (Suit.clubs, Rank.A), (Suit.diamonds, Rank.J), (Suit.diamonds, Rank.r8),
   (Suit.diamonds, Rank.r4), (Suit.hearts, Rank.Q), (Suit.hearts, Rank.r6),
   (Suit.diamonds, Rank.r10), (Suit.diamonds, Rank.r7), (Suit.diamonds, Rank.r3),
   (Suit.hearts, Rank.J), (Suit.hearts, Rank.r5),
   (Suit.diamonds, Rank.r6), (Suit.diamonds, Rank.r2), (Suit.hearts, Rank.r10),
   (Suit.hearts, Rank.r4),
   (Suit.diamonds, Rank.A), (Suit.hearts, Rank.r9), (Suit.hearts, Rank.r3),
   (Suit.hearts, Rank.r8), (Suit.hearts, Rank.r2),
   (Suit.hearts, Rank.A),
   (Suit.spades, Rank.K), (Suit.spades, Rank.Q), (Suit.spades, Rank.J),
   (Suit.spades, Rank.r10), (Suit.spades, Rank.r9), (Suit.spades, Rank.r8),
   (Suit.spades, Rank.r7), (Suit.spades, Rank.r6), (Suit.spades, Rank.r5),
   (Suit.spades, Rank.r4), (Suit.spades, Rank.r3), (Suit.spades, Rank.r2),
   (Suit.spades, Rank.A),
   (Suit.clubs, Rank.K), (Suit.clubs, Rank.Q), (Suit.clubs, Rank.J),
   (Suit.clubs, Rank.r10), (Suit.clubs, Rank.r9), (Suit.clubs, Rank.r8),
   (Suit.clubs, Rank.r7), (Suit.clubs, Rank.r6), (Suit.clubs, Rank.r5),
   (Suit.clubs, Rank.r4), (Suit.clubs, Rank.r3)]

def cexDeck : List CardId := cexStream.reverse

/-- The winning trace up to (but not including) the winning double-click:
empty all tableaus onto the foundations by double-clicks, then draw-and-click
the stock through the waste; the final `draw` leaves the K♠ on the waste. -/
def cexOpsA : List Op :=
  [Op.dbl (.tableauClick 1), Op.dbl (.tableauClick 1)] ++
  List.replicate 5 (Op.dbl (.tableauClick 4)) ++
  List.replicate 4 (Op.dbl (.tableauClick 3)) ++
  List.replicate 3 (Op.dbl (.tableauClick 2)) ++
  [Op.dbl (.tableauClick 0)] ++
  List.replicate 7 (Op.dbl (.tableauClick 6)) ++
  List.replicate 6 (Op.dbl (.tableauClick 5)) ++
  (List.replicate 23 [Op.draw, Op.dbl .wasteClick]).flatten ++
  [Op.draw]

def execOps (ops : List Op) (s : GameState) : GameState :=
  ops.foldl (fun t o => applyOp o t) s

/-- The state one double-click away from winning: foundations hold
13/13/13/12 cards, K♠ on the waste, win flag still false. -/
def cexPre : GameState := execOps cexOpsA (initGame cexDeck)

/-- The full trace: win the game, then drag the K♠ from foundation 3 onto
the (empty) tableau 0 — a legal move that leaves the win flag set while a
foundation holds only 12 cards. -/
def cexOps : List Op :=
  cexOpsA ++ [Op.dbl .wasteClick, Op.drop ⟨.foundationSrc 3, .tableauDst 0⟩]

def cexState : GameState := execOps cexOps (initGame cexDeck)

def noNewGame : Op → Bool
| .newGameOp _ => false
| _ => true

theorem reachable_execOps :
    ∀ (ops : List Op) (s : GameState), Reachable s → ops.all noNewGame = true →
      Reachable (execOps ops s) := by
  intro ops
  induction ops with
  | nil => intro s h _; exact h
  | cons o rest ih =>
      intro s h hall
      simp only [List.all_cons, Bool.and_eq_true] at hall
      have hv : ValidOp o := by
        cases o with
        | newGameOp d => simp [noNewGame] at hall
        | drop m => trivial
        | draw => trivial
        | dbl p => trivial
        | auto => trivial
        | undoOp => trivial
      exact ih (applyOp o s) (Reachable.step o s h hv) hall.2

set_option maxRecDepth 1000000 in
/-- C3 is refuted: `cexState` is reachable (dealt from a genuine permutation
of the standard deck, then played by listed moves), its win flag is true, yet
its foundations hold 13, 13, 13 and 12 cards — `check_win` never clears the
flag once a later move breaks the foundations. -/
theorem win_flag_iff_counterexample :
    Reachable cexState ∧
    cexState.won = true ∧
    cexState.foundations.map (fun f => f.cards.length) = [13, 13, 13, 12] :=
  ⟨reachable_execOps cexOps (initGame cexDeck)
      (Reachable.base cexDeck (by decide)) (by decide),
   by decide, by decide⟩

set_option maxRecDepth 1000000 in
theorem win_flag_amended_witness :
    (newGameOn stdDeckIds setupState).won = false ∧
    ((undo (applyOp Op.draw (initGame stdDeckIds))).2).won = false ∧
    (∀ fp ∈ (applyOp (Op.dbl ClickSrc.wasteClick) cexPre).foundations,
      fp.cards.length = 13) :=
  ⟨win_flag_amended.1 stdDeckIds setupState,
   win_flag_amended.2.1 (applyOp Op.draw (initGame stdDeckIds)) (by decide),
   win_flag_amended.2.2 (Op.dbl ClickSrc.wasteClick) cexPre (by decide) (by decide)⟩

/-- Witness for C2: dropping the waste's 6♥ onto a tableau showing a black 7
scores +5 (no reveal). -/
def dropWitnessState : GameState :=
  { score := 3
    won := false
    stock := []
    waste := [⟨.hearts, .r6, true⟩]
    foundations := suitList.map (fun su => ⟨[], su⟩)
    tableaus := [⟨.clubs, .r7, true⟩] :: List.replicate 6 []
    history := [] }

def dropWitnessMove : DropMove := ⟨.wasteSrc, .tableauDst 0⟩

theorem drop_score_spec_witness :
    (execDrop dropWitnessMove dropWitnessState).score =
      (if revealCond dropWitnessMove dropWitnessState
       then max 0 (max 0 (dropWitnessState.score +
          specScoreDelta dropWitnessMove.src dropWitnessMove.dst
            (dragRun dropWitnessMove.src dropWitnessState).length) + 5)
       else max 0 (dropWitnessState.score +
          specScoreDelta dropWitnessMove.src dropWitnessMove.dst
            (dragRun dropWitnessMove.src dropWitnessState).length)) :=
  (drop_score_spec dropWitnessMove dropWitnessState (by decide) (by decide)).1

theorem recycle_spec_witness :
    (drawFromStock recycleWitnessState).waste = [] ∧
    (drawFromStock recycleWitnessState).stock =
      recycleWitnessState.waste.reverse.map (fun c => { c with faceUp := false }) ∧
    (drawFromStock recycleWitnessState).score = max 0 (recycleWitnessState.score - 20) :=
  recycle_spec recycleWitnessState rfl (by decide)

end Solitaire
